import Mathlib

/-!
Verification of the mcp-devbench orchestration core against its specification.

We shallowly embed the Python source (managers/output_streamer.py,
managers/exec_manager.py, managers/container_manager.py,
managers/filesystem_manager.py, repositories/execs.py) as executable Lean
definitions and prove or refute the frozen claims about it.

Conventions of the embedding:
- Python dicts keyed by strings become association lists (`Dict`), with
  lookup, defaulted lookup, insertion and deletion mirroring dict semantics.
- Python bytes become `List Nat`; Python int becomes `Int`.
- Python exceptions become `Except`/explicit error sums.  Where an uncaught
  exception can leave partially mutated state (in-place mutation followed by
  a raising statement), the operation returns the partially mutated state
  together with the raised error, mirroring the source line by line.
- asyncio locks only serialize operations; they carry no other semantics and
  are not modelled.  Timestamps carried by chunks are irrelevant to every
  claim under study and are omitted from chunk records.
-/

namespace DevBench

deriving instance DecidableEq for Except

/-- Association-list model of a Python dict keyed by strings. -/
abbrev Dict (α : Type) : Type := List (String × α)

namespace Dict

/-- Membership / item lookup: `d.get(k)` returning `None` when absent
(also models the raising lookup `d[k]` with `none` = `KeyError`). -/
def dget {α : Type} (d : Dict α) (k : String) : Option α :=
  (List.find? (fun p => p.1 = k) d).map (fun p => p.2)

/-- Defaulted lookup `d.get(k, v)`. -/
def dgetD {α : Type} (d : Dict α) (k : String) (v : α) : α :=
  (dget d k).getD v

/-- Deletion `del d[k]` (no-op when the key is absent, matching the guarded
deletions in the source, which always test membership first). -/
def ddel {α : Type} : Dict α → String → Dict α
  | [], _ => []
  | p :: d, k => if p.1 = k then ddel d k else p :: ddel d k

/-- Assignment `d[k] = v` (overwrites any previous binding). -/
def dset {α : Type} (d : Dict α) (k : String) (v : α) : Dict α :=
  ddel d k ++ [(k, v)]

/-- `k in d`. -/
def hasKey {α : Type} (d : Dict α) (k : String) : Bool :=
  (dget d k).isSome

theorem dget_nil {α : Type} (k : String) : dget ([] : Dict α) k = none := rfl

theorem dget_cons_self {α : Type} {p : String × α} {d : Dict α} {k : String}
    (h : p.1 = k) : dget (p :: d) k = some p.2 := by
  simp [dget, List.find?_cons_of_pos, h]

theorem dget_cons_ne {α : Type} {p : String × α} {d : Dict α} {k : String}
    (h : p.1 ≠ k) : dget (p :: d) k = dget d k := by
  simp only [dget]
  rw [List.find?_cons_of_neg]
  simp [h]

theorem dget_ddel_self {α : Type} (d : Dict α) (k : String) :
    dget (ddel d k) k = none := by
  induction d with
  | nil => rfl
  | cons p d ih =>
    by_cases hp : p.1 = k
    · simpa [ddel, hp] using ih
    · rw [ddel]
      simp only [hp, if_false]
      rw [dget_cons_ne hp]
      exact ih

theorem dget_ddel_ne {α : Type} (d : Dict α) (k k' : String) (h : k ≠ k') :
    dget (ddel d k) k' = dget d k' := by
  induction d with
  | nil => rfl
  | cons p d ih =>
    by_cases hp : p.1 = k
    · have hp' : p.1 ≠ k' := fun hc => h (hp ▸ hc)
      rw [ddel]
      simp only [hp, if_true]
      rw [ih, dget_cons_ne hp']
    · rw [ddel]
      simp only [hp, if_false]
      by_cases hp' : p.1 = k'
      · rw [dget_cons_self hp', dget_cons_self hp']
      · rw [dget_cons_ne hp', dget_cons_ne hp']
        exact ih

theorem dget_append {α : Type} (d₁ d₂ : Dict α) (k : String) :
    dget (d₁ ++ d₂) k = (dget d₁ k).or (dget d₂ k) := by
  simp only [dget, List.find?_append]
  cases List.find? (fun p => p.1 = k) d₁ <;> rfl

theorem dget_dset_self {α : Type} (d : Dict α) (k : String) (v : α) :
    dget (dset d k v) k = some v := by
  rw [dset, dget_append, dget_ddel_self, dget_cons_self rfl]
  rfl

theorem dget_dset_ne {α : Type} (d : Dict α) (k k' : String) (v : α) (h : k ≠ k') :
    dget (dset d k v) k' = dget d k' := by
  rw [dset, dget_append, dget_ddel_ne _ _ _ h]
  have : dget [(k, v)] k' = none := by
    rw [dget_cons_ne h, dget_nil]
  rw [this]
  cases dget d k' <;> rfl

theorem dgetD_dset_self {α : Type} (d : Dict α) (k : String) (v w : α) :
    dgetD (dset d k v) k w = v := by
  simp [dgetD, dget_dset_self]

theorem dgetD_dset_ne {α : Type} (d : Dict α) (k k' : String) (v w : α) (h : k ≠ k') :
    dgetD (dset d k v) k' w = dgetD d k' w := by
  simp [dgetD, dget_dset_ne _ _ _ _ h]

theorem dgetD_ddel_self {α : Type} (d : Dict α) (k : String) (w : α) :
    dgetD (ddel d k) k w = w := by
  simp [dgetD, dget_ddel_self]

theorem dgetD_ddel_ne {α : Type} (d : Dict α) (k k' : String) (w : α) (h : k ≠ k') :
    dgetD (ddel d k) k' w = dgetD d k' w := by
  simp [dgetD, dget_ddel_ne _ _ _ h]

end Dict

open Dict

/-! ## Output streamer (managers/output_streamer.py) -/

/-- A value stored in a usage dictionary (ints and bools occur in the source). -/
inductive UVal : Type
  | i (n : Int)
  | b (v : Bool)
  deriving DecidableEq

/-- Usage dictionaries (`usage` in the source). -/
abbrev Usage : Type := List (String × UVal)

/-- `OutputChunk` from output_streamer.py (the `ts` timestamp field is
omitted: no claim mentions it). -/
structure OutputChunk : Type where
  seq : Int
  stream : String
  data : List Nat
  deriving DecidableEq

/-- `CompletionChunk` from output_streamer.py (`ts` omitted as above). -/
structure CompletionChunk : Type where
  seq : Int
  exit_code : Int
  usage : Usage
  deriving DecidableEq

/-- An element of a per-exec buffer deque: output chunk or completion chunk. -/
inductive Chunk : Type
  | out (c : OutputChunk)
  | done (c : CompletionChunk)
  deriving DecidableEq

/-- Sequence number of a chunk (`chunk.seq` in the source, defined on both
chunk classes). -/
def Chunk.seq : Chunk → Int
  | .out c => c.seq
  | .done c => c.seq

/-- Whether a chunk is a completion chunk (`isinstance(c, CompletionChunk)`). -/
def Chunk.isDone : Chunk → Bool
  | .out _ => false
  | .done _ => true

/-- Uncaught Python exceptions that the streamer code can raise. -/
inductive PyErr : Type
  | keyError
  | indexError
  deriving DecidableEq

/-- State of `class OutputStreamer`: the four per-exec dicts plus the two
configured caps.  The `_locks` dict only serializes and is not modelled. -/
structure OutputStreamer : Type where
  max_buffer_size : Int
  max_chunks : Nat
  buffers : Dict (List Chunk)
  sequences : Dict Int
  buffered_bytes : Dict Int
  completed : Dict Bool
  deriving DecidableEq

namespace OutputStreamer

/-- `OutputStreamer(max_buffer_size, max_chunks)`: fresh instance. -/
def mkStreamer (maxBuf : Int) (maxChunks : Nat) : OutputStreamer :=
  { max_buffer_size := maxBuf
    max_chunks := maxChunks
    buffers := []
    sequences := []
    buffered_bytes := []
    completed := [] }

/-- `init_exec`: create empty per-exec state unless already present. -/
def init_exec (s : OutputStreamer) (e : String) : OutputStreamer :=
  if hasKey s.buffers e then s
  else
    { s with
      buffers := dset s.buffers e []
      sequences := dset s.sequences e 0
      buffered_bytes := dset s.buffered_bytes e 0
      completed := dset s.completed e false }

/-- The chunk-limit block of `add_output`:
`if len(self._buffers.get(exec_id, [])) >= self.max_chunks: oldest = self._buffers[exec_id].popleft(); if isinstance(oldest, OutputChunk): self._buffered_bytes[exec_id] -= len(oldest.data)`.
Returns the mutated state and the raised exception when one occurs
(`d[k]` on a missing key raises `KeyError`, `popleft` on an empty deque
raises `IndexError`). -/
def evictIfFull (s : OutputStreamer) (e : String) : OutputStreamer × Option PyErr :=
  if (dgetD s.buffers e []).length ≥ s.max_chunks then
    match dget s.buffers e with
    | none => (s, some PyErr.keyError)
    | some [] => (s, some PyErr.indexError)
    | some (oldest :: rest) =>
      let s1 := { s with buffers := dset s.buffers e rest }
      match oldest with
      | .out oc =>
        match dget s1.buffered_bytes e with
        | none => (s1, some PyErr.keyError)
        | some b =>
          ({ s1 with buffered_bytes := dset s1.buffered_bytes e (b - oc.data.length) },
           none)
      | .done _ => (s1, none)
  else (s, none)

/-- The enqueue tail of `add_output`:
`seq = self._sequences[exec_id]; self._sequences[exec_id] += 1; chunk = OutputChunk(...); self._buffers[exec_id].append(chunk); self._buffered_bytes[exec_id] += len(data); return seq`. -/
def enqueueChunk (s : OutputStreamer) (e : String) (stream : String)
    (data : List Nat) : OutputStreamer × Except PyErr (Option Int) :=
  match dget s.sequences e with
  | none => (s, .error PyErr.keyError)
  | some seq =>
    let s2 := { s with sequences := dset s.sequences e (seq + 1) }
    let chunk := Chunk.out { seq := seq, stream := stream, data := data }
    match dget s2.buffers e with
    | none => (s2, .error PyErr.keyError)
    | some buf =>
      let s3 := { s2 with buffers := dset s2.buffers e (buf ++ [chunk]) }
      match dget s3.buffered_bytes e with
      | none => (s3, .error PyErr.keyError)
      | some b =>
        ({ s3 with buffered_bytes := dset s3.buffered_bytes e (b + data.length) },
         .ok (some seq))

/-- `add_output`, translated line by line (split into `evictIfFull` and
`enqueueChunk` for the two inner blocks).  The returned streamer is the
state after the call, also when the call raises (`.error`): in-place dict
mutations preceding a raising statement persist, exactly as in Python.
Returns `.ok none` when the chunk is dropped (empty data or byte cap),
`.ok (some seq)` when the chunk was enqueued. -/
def add_output (s : OutputStreamer) (e : String) (stream : String)
    (data : List Nat) : OutputStreamer × Except PyErr (Option Int) :=
  -- `if not data: return None`
  if data.isEmpty then (s, .ok none)
  -- `if self._buffered_bytes.get(exec_id, 0) + len(data) > self.max_buffer_size`
  else if dgetD s.buffered_bytes e 0 + (data.length : Int) > s.max_buffer_size then
    (s, .ok none)
  else
    match evictIfFull s e with
    | (s1, some err) => (s1, .error err)
    | (s1, none) => enqueueChunk s1 e stream data

/-- `complete`: enqueue the completion chunk and set the completed flag.
Never raises. -/
def complete (s : OutputStreamer) (e : String) (exitCode : Int) (usage : Usage) :
    OutputStreamer × Int :=
  -- `seq = self._sequences.get(exec_id, 0); self._sequences[exec_id] = seq + 1`
  let seq := dgetD s.sequences e 0
  let s1 := { s with sequences := dset s.sequences e (seq + 1) }
  let chunk := Chunk.done { seq := seq, exit_code := exitCode, usage := usage }
  -- `if exec_id in self._buffers: append else deque([chunk])`
  let s2 :=
    match dget s1.buffers e with
    | some buf => { s1 with buffers := dset s1.buffers e (buf ++ [chunk]) }
    | none => { s1 with buffers := dset s1.buffers e [chunk] }
  ({ s2 with completed := dset s2.completed e true }, seq)

/-- `poll`: chunks with `seq > after_seq` (all chunks when `after_seq` is
`None`) together with the completion flag.  The source serializes the chunks
through `to_dict`; we return the chunk values themselves, which carry the
same `seq`/`stream`/completion information. -/
def poll (s : OutputStreamer) (e : String) (afterSeq : Option Int) :
    List Chunk × Bool :=
  match dget s.buffers e with
  | none => ([], false)
  | some buf =>
    (buf.filter (fun c => match afterSeq with
        | none => true
        | some k => k < c.seq),
     dgetD s.completed e false)

/-- `cleanup`: drop all per-exec state. -/
def cleanup (s : OutputStreamer) (e : String) : OutputStreamer :=
  { s with
    buffers := ddel s.buffers e
    sequences := ddel s.sequences e
    buffered_bytes := ddel s.buffered_bytes e
    completed := ddel s.completed e }

end OutputStreamer

/-! ### Trace semantics for the streamer

Claims C1, C9 and C10 quantify over every history of streamer operations, so
we give the mutators a small-step trace semantics. -/

/-- One mutating streamer call. -/
inductive SOp : Type
  | init (e : String)
  | add (e : String) (stream : String) (data : List Nat)
  | complete (e : String) (exitCode : Int) (usage : Usage)
  | cleanup (e : String)
  deriving DecidableEq

/-- The exec id an operation addresses. -/
def SOp.execId : SOp → String
  | .init e => e
  | .add e _ _ => e
  | .complete e _ _ => e
  | .cleanup e => e

/-- Whether the operation can enqueue a chunk for exec `e`
(an `add_output` or `complete` call addressed to `e`). -/
def SOp.appendsTo (e : String) : SOp → Bool
  | .add e' _ _ => e' = e
  | .complete e' _ _ => e' = e
  | _ => false

/-- Post-state of one streamer call (return values discarded; for a raising
`add_output` this is the partially mutated state, as in the source). -/
def sstep (s : OutputStreamer) : SOp → OutputStreamer
  | .init e => s.init_exec e
  | .add e stream data => (s.add_output e stream data).1
  | .complete e c u => (s.complete e c u).1
  | .cleanup e => s.cleanup e

/-- State after a whole trace of streamer calls. -/
def srun (s : OutputStreamer) : List SOp → OutputStreamer
  | [] => s
  | op :: t => srun (sstep s op) t

/-! ### Views of the per-exec state

`bufOf`, `curSeq` and `completedOf` read an exec's buffer, sequence counter
and completion flag through the same defaults the source uses
(`.get(exec_id, [])`, `.get(exec_id, 0)`, `.get(exec_id, False)`). -/

/-- The buffer deque of exec `e` (empty when absent). -/
def bufOf (s : OutputStreamer) (e : String) : List Chunk :=
  dgetD s.buffers e []

/-- The sequence counter of exec `e` (0 when absent). -/
def curSeq (s : OutputStreamer) (e : String) : Int :=
  dgetD s.sequences e 0

/-- The completion flag of exec `e` (false when absent). -/
def completedOf (s : OutputStreamer) (e : String) : Bool :=
  dgetD s.completed e false

namespace OutputStreamer

theorem poll_eq (s : OutputStreamer) (e : String) (k : Option Int) :
    s.poll e k =
      ((bufOf s e).filter (fun c => match k with
          | none => true
          | some k => k < c.seq),
       if hasKey s.buffers e then completedOf s e else false) := by
  unfold poll bufOf completedOf hasKey dgetD
  cases h : dget s.buffers e <;> simp [h]

/-- `evictIfFull` leaves the sequence counters, completion flags and caps
alone, does not touch other execs, and at `e` either leaves the buffer
unchanged or drops exactly its oldest chunk. -/
theorem evictIfFull_shape (s : OutputStreamer) (e : String) :
    (evictIfFull s e).1.sequences = s.sequences ∧
    (evictIfFull s e).1.completed = s.completed ∧
    (evictIfFull s e).1.max_chunks = s.max_chunks ∧
    (evictIfFull s e).1.max_buffer_size = s.max_buffer_size ∧
    (∀ e', e' ≠ e → dget (evictIfFull s e).1.buffers e' = dget s.buffers e') ∧
    (bufOf (evictIfFull s e).1 e = bufOf s e ∨
      bufOf (evictIfFull s e).1 e = (bufOf s e).tail) := by
  by_cases hfull : (dgetD s.buffers e []).length ≥ s.max_chunks
  · cases hb : dget s.buffers e with
    | none => simp [evictIfFull, hfull, hb]
    | some buf =>
      cases buf with
      | nil => simp [evictIfFull, hfull, hb]
      | cons oldest rest =>
        have hbuf : bufOf s e = oldest :: rest := by
          simp [bufOf, dgetD, hb]
        cases oldest with
        | out oc =>
          simp only [evictIfFull, hfull, if_true, hb]
          cases hbb : dget s.buffered_bytes e with
          | none =>
            simp only [hbb]
            refine ⟨trivial, trivial, trivial, trivial, ?_, ?_⟩
            · intro e' he'
              exact dget_dset_ne _ _ _ _ (fun hc => he' hc.symm)
            · right
              simp [bufOf, dgetD, dget_dset_self, hb]
          | some b =>
            simp only [hbb]
            refine ⟨trivial, trivial, trivial, trivial, ?_, ?_⟩
            · intro e' he'
              exact dget_dset_ne _ _ _ _ (fun hc => he' hc.symm)
            · right
              simp [bufOf, dgetD, dget_dset_self, hb]
        | done c =>
          simp only [evictIfFull, hfull, if_true, hb]
          refine ⟨trivial, trivial, trivial, trivial, ?_, ?_⟩
          · intro e' he'
            exact dget_dset_ne _ _ _ _ (fun hc => he' hc.symm)
          · right
            simp [bufOf, dgetD, dget_dset_self, hb]
  · simp [evictIfFull, hfull]

/-- `enqueueChunk` does not touch other execs or the completion flags; at
`e` it either fails leaving the buffer unchanged (possibly after bumping
the counter) or appends one output chunk carrying the pre-call counter
value and bumps the counter. -/
theorem enqueueChunk_shape (s : OutputStreamer) (e stream : String)
    (data : List Nat) :
    (enqueueChunk s e stream data).1.completed = s.completed ∧
    (∀ e', e' ≠ e →
      dget (enqueueChunk s e stream data).1.buffers e' = dget s.buffers e' ∧
      dget (enqueueChunk s e stream data).1.sequences e' = dget s.sequences e') ∧
    (curSeq (enqueueChunk s e stream data).1 e = curSeq s e ∨
      curSeq (enqueueChunk s e stream data).1 e = curSeq s e + 1) ∧
    (bufOf (enqueueChunk s e stream data).1 e = bufOf s e ∨
      (bufOf (enqueueChunk s e stream data).1 e =
          bufOf s e ++ [Chunk.out { seq := curSeq s e, stream := stream, data := data }] ∧
        curSeq (enqueueChunk s e stream data).1 e = curSeq s e + 1)) := by
  cases hs : dget s.sequences e with
  | none => simp [enqueueChunk, hs]
  | some seq =>
    have hseq : curSeq s e = seq := by simp [curSeq, dgetD, hs]
    simp only [enqueueChunk, hs]
    cases hb : dget s.buffers e with
    | none =>
      simp only [hb]
      refine ⟨trivial, ?_, ?_, ?_⟩
      · intro e' he'
        exact ⟨trivial, dget_dset_ne _ _ _ _ (fun hc => he' hc.symm)⟩
      · right
        simp [curSeq, dgetD, dget_dset_self, hs]
      · left; trivial
    | some buf =>
      have hbuf : bufOf s e = buf := by simp [bufOf, dgetD, hb]
      simp only [hb]
      cases hbb : dget s.buffered_bytes e with
      | none =>
        simp only [hbb]
        refine ⟨trivial, ?_, ?_, ?_⟩
        · intro e' he'
          exact ⟨dget_dset_ne _ _ _ _ (fun hc => he' hc.symm),
            dget_dset_ne _ _ _ _ (fun hc => he' hc.symm)⟩
        · right
          simp [curSeq, dgetD, dget_dset_self, hs]
        · right
          constructor
          · simp [bufOf, dgetD, dget_dset_self, hb, hs, hseq]
          · simp [curSeq, dgetD, dget_dset_self, hs]
      | some b =>
        simp only [hbb]
        refine ⟨trivial, ?_, ?_, ?_⟩
        · intro e' he'
          exact ⟨dget_dset_ne _ _ _ _ (fun hc => he' hc.symm),
            dget_dset_ne _ _ _ _ (fun hc => he' hc.symm)⟩
        · right
          simp [curSeq, dgetD, dget_dset_self, hs]
        · right
          constructor
          · simp [bufOf, dgetD, dget_dset_self, hb, hs, hseq]
          · simp [curSeq, dgetD, dget_dset_self, hs]

/-- Combined shape of `add_output`: other execs are untouched; the exec's
completion flag is untouched; the counter stays or is bumped by one; the
buffer stays, loses its oldest chunk, or additionally gets one output chunk
with the pre-call counter value appended (only for non-empty data, with the
counter bumped). -/
theorem add_output_shape (s : OutputStreamer) (e stream : String)
    (data : List Nat) :
    (∀ e', e' ≠ e →
      bufOf (s.add_output e stream data).1 e' = bufOf s e' ∧
      curSeq (s.add_output e stream data).1 e' = curSeq s e' ∧
      completedOf (s.add_output e stream data).1 e' = completedOf s e') ∧
    completedOf (s.add_output e stream data).1 e = completedOf s e ∧
    (curSeq (s.add_output e stream data).1 e = curSeq s e ∨
      curSeq (s.add_output e stream data).1 e = curSeq s e + 1) ∧
    (bufOf (s.add_output e stream data).1 e = bufOf s e ∨
      bufOf (s.add_output e stream data).1 e = (bufOf s e).tail ∨
      (data ≠ [] ∧ ∃ mid, (mid = bufOf s e ∨ mid = (bufOf s e).tail) ∧
        bufOf (s.add_output e stream data).1 e =
          mid ++ [Chunk.out { seq := curSeq s e, stream := stream, data := data }] ∧
        curSeq (s.add_output e stream data).1 e = curSeq s e + 1)) := by
  by_cases hd : data.isEmpty
  · simp [add_output, hd]
  · by_cases hcap : dgetD s.buffered_bytes e 0 + (data.length : Int) > s.max_buffer_size
    · simp [add_output, hd, hcap]
    · obtain ⟨hseq1, hcomp1, _, _, hframe1, hbuf1⟩ := evictIfFull_shape s e
      rcases hev : evictIfFull s e with ⟨s1, err⟩
      rw [hev] at hseq1 hcomp1 hframe1 hbuf1
      dsimp only at hseq1 hcomp1 hframe1 hbuf1
      have hrun : (s.add_output e stream data) =
          match (s1, err) with
          | (s1, some err) => (s1, .error err)
          | (s1, none) => enqueueChunk s1 e stream data := by
        simp [add_output, hd, hcap, hev]
      cases err with
      | some err =>
        simp only [hrun]
        refine ⟨?_, ?_, ?_, ?_⟩
        · intro e' he'
          refine ⟨?_, ?_, ?_⟩
          · simp [bufOf, dgetD, hframe1 e' he']
          · simp [curSeq, dgetD, hseq1]
          · simp [completedOf, dgetD, hcomp1]
        · simp [completedOf, dgetD, hcomp1]
        · left; simp [curSeq, dgetD, hseq1]
        · rcases hbuf1 with h | h
          · left; exact h
          · right; left; exact h
      | none =>
        obtain ⟨hcomp2, hframe2, hcur2, hbuf2⟩ := enqueueChunk_shape s1 e stream data
        have hcur1 : ∀ e', curSeq s1 e' = curSeq s e' := by
          intro e'; simp [curSeq, dgetD, hseq1]
        have hcompAll : ∀ e', completedOf s1 e' = completedOf s e' := by
          intro e'; simp [completedOf, dgetD, hcomp1]
        simp only [hrun]
        refine ⟨?_, ?_, ?_, ?_⟩
        · intro e' he'
          obtain ⟨hfb, hfs⟩ := hframe2 e' he'
          refine ⟨?_, ?_, ?_⟩
          · simp [bufOf, dgetD, hfb, hframe1 e' he']
          · simp [curSeq, dgetD, hfs, hseq1]
          · simp [completedOf, dgetD, hcomp2, hcomp1]
        · simp [completedOf, dgetD, hcomp2, hcomp1]
        · rcases hcur2 with h | h
          · left; rw [h, hcur1]
          · right; rw [h, hcur1]
        · rcases hbuf2 with h | ⟨happ, hbump⟩
          · rcases hbuf1 with h1 | h1
            · left; rw [h, h1]
            · right; left; rw [h, h1]
          · right; right
            refine ⟨fun hc => hd (by simp [hc]), bufOf s1 e, ?_, ?_, ?_⟩
            · exact hbuf1
            · rw [happ, hcur1]
            · rw [hbump, hcur1]

/-- Shape of `complete`: appends exactly one completion chunk carrying the
pre-call counter value, bumps the counter, sets the flag; other execs are
untouched. -/
theorem complete_shape (s : OutputStreamer) (e : String) (code : Int)
    (usage : Usage) :
    (∀ e', e' ≠ e →
      bufOf (s.complete e code usage).1 e' = bufOf s e' ∧
      curSeq (s.complete e code usage).1 e' = curSeq s e' ∧
      completedOf (s.complete e code usage).1 e' = completedOf s e') ∧
    bufOf (s.complete e code usage).1 e =
      bufOf s e ++ [Chunk.done { seq := curSeq s e, exit_code := code, usage := usage }] ∧
    curSeq (s.complete e code usage).1 e = curSeq s e + 1 ∧
    completedOf (s.complete e code usage).1 e = true := by
  cases hb : dget s.buffers e with
  | none =>
    have hbuf : bufOf s e = [] := by simp [bufOf, dgetD, hb]
    simp only [complete, hb]
    refine ⟨?_, ?_, ?_, ?_⟩
    · intro e' he'
      have hne : e ≠ e' := fun hc => he' hc.symm
      refine ⟨?_, ?_, ?_⟩
      · simp [bufOf, dgetD, dget_dset_ne _ _ _ _ hne]
      · simp [curSeq, dgetD, dget_dset_ne _ _ _ _ hne]
      · simp [completedOf, dgetD, dget_dset_ne _ _ _ _ hne]
    · simp [bufOf, dgetD, dget_dset_self, hb, curSeq]
    · simp [curSeq, dgetD, dget_dset_self]
    · simp [completedOf, dgetD, dget_dset_self]
  | some buf =>
    have hbuf : bufOf s e = buf := by simp [bufOf, dgetD, hb]
    simp only [complete, hb]
    refine ⟨?_, ?_, ?_, ?_⟩
    · intro e' he'
      have hne : e ≠ e' := fun hc => he' hc.symm
      refine ⟨?_, ?_, ?_⟩
      · simp [bufOf, dgetD, dget_dset_ne _ _ _ _ hne]
      · simp [curSeq, dgetD, dget_dset_ne _ _ _ _ hne]
      · simp [completedOf, dgetD, dget_dset_ne _ _ _ _ hne]
    · simp [bufOf, dgetD, dget_dset_self, hb, curSeq]
    · simp [curSeq, dgetD, dget_dset_self]
    · simp [completedOf, dgetD, dget_dset_self]

/-- Shape of `init_exec`: other execs are untouched; the exec itself is
either already present (state unchanged) or reset to the empty defaults. -/
theorem init_exec_shape (s : OutputStreamer) (e : String) :
    (∀ e', e' ≠ e →
      bufOf (s.init_exec e) e' = bufOf s e' ∧
      curSeq (s.init_exec e) e' = curSeq s e' ∧
      completedOf (s.init_exec e) e' = completedOf s e') ∧
    (s.init_exec e = s ∨
      (bufOf (s.init_exec e) e = [] ∧ curSeq (s.init_exec e) e = 0 ∧
        completedOf (s.init_exec e) e = false)) := by
  by_cases hk : hasKey s.buffers e
  · simp [init_exec, hk]
  · constructor
    · intro e' he'
      have hne : e ≠ e' := fun hc => he' hc.symm
      refine ⟨?_, ?_, ?_⟩
      · simp [init_exec, hk, bufOf, dgetD, dget_dset_ne _ _ _ _ hne]
      · simp [init_exec, hk, curSeq, dgetD, dget_dset_ne _ _ _ _ hne]
      · simp [init_exec, hk, completedOf, dgetD, dget_dset_ne _ _ _ _ hne]
    · right
      refine ⟨?_, ?_, ?_⟩
      · simp [init_exec, hk, bufOf, dgetD, dget_dset_self]
      · simp [init_exec, hk, curSeq, dgetD, dget_dset_self]
      · simp [init_exec, hk, completedOf, dgetD, dget_dset_self]

/-- Shape of `cleanup`: other execs are untouched; the exec itself is reset
to the empty defaults. -/
theorem cleanup_shape (s : OutputStreamer) (e : String) :
    (∀ e', e' ≠ e →
      bufOf (s.cleanup e) e' = bufOf s e' ∧
      curSeq (s.cleanup e) e' = curSeq s e' ∧
      completedOf (s.cleanup e) e' = completedOf s e') ∧
    bufOf (s.cleanup e) e = [] ∧ curSeq (s.cleanup e) e = 0 ∧
    completedOf (s.cleanup e) e = false := by
  constructor
  · intro e' he'
    have hne : e ≠ e' := fun hc => he' hc.symm
    refine ⟨?_, ?_, ?_⟩
    · simp [cleanup, bufOf, dgetD, dget_ddel_ne _ _ _ hne]
    · simp [cleanup, curSeq, dgetD, dget_ddel_ne _ _ _ hne]
    · simp [cleanup, completedOf, dgetD, dget_ddel_ne _ _ _ hne]
  · refine ⟨?_, ?_, ?_⟩
    · simp [cleanup, bufOf, dgetD, dget_ddel_self]
    · simp [cleanup, curSeq, dgetD, dget_ddel_self]
    · simp [cleanup, completedOf, dgetD, dget_ddel_self]

end OutputStreamer

/-! ### Invariants over all reachable streamer states -/

open OutputStreamer

/-- Chunk order by sequence number. -/
def seqLT (a b : Chunk) : Prop := a.seq < b.seq

/-- Streamer invariant: every buffer is strictly increasing in `seq`, and
every buffered sequence number is below the exec's counter. -/
def SInv (s : OutputStreamer) : Prop :=
  ∀ e, (bufOf s e).Pairwise seqLT ∧ ∀ c ∈ bufOf s e, c.seq < curSeq s e

theorem sstep_SInv (s : OutputStreamer) (op : SOp) (h : SInv s) :
    SInv (sstep s op) := by
  cases op with
  | init e =>
    obtain ⟨hframe, hcase⟩ := init_exec_shape s e
    intro e'
    by_cases he : e' = e
    · subst he
      rcases hcase with heq | ⟨hb, hc, _⟩
      · simpa [sstep, heq] using h e'
      · simp [sstep, hb, hc]
    · obtain ⟨h1, h2, _⟩ := hframe e' he
      simpa [sstep, h1, h2] using h e'
  | cleanup e =>
    obtain ⟨hframe, hb, hc, _⟩ := cleanup_shape s e
    intro e'
    by_cases he : e' = e
    · subst he
      simp [sstep, hb, hc]
    · obtain ⟨h1, h2, _⟩ := hframe e' he
      simpa [sstep, h1, h2] using h e'
  | complete e code usage =>
    obtain ⟨hframe, hb, hc, _⟩ := complete_shape s e code usage
    intro e'
    by_cases he : e' = e
    · subst he
      obtain ⟨hp, hlt⟩ := h e'
      constructor
      · rw [sstep, hb]
        refine List.pairwise_append.mpr ⟨hp, List.pairwise_singleton _ _, ?_⟩
        intro a ha b hbmem
        rw [List.mem_singleton] at hbmem
        subst hbmem
        exact hlt a ha
      · intro c hc2
        rw [sstep, hb] at hc2
        rw [sstep, hc]
        rcases List.mem_append.mp hc2 with hcl | hcr
        · exact lt_trans (hlt c hcl) (by omega)
        · rw [List.mem_singleton] at hcr
          subst hcr
          simp [Chunk.seq]
    · obtain ⟨h1, h2, _⟩ := hframe e' he
      simpa [sstep, h1, h2] using h e'
  | add e stream data =>
    obtain ⟨hframe, _, hcur, hbuf⟩ := add_output_shape s e stream data
    intro e'
    by_cases he : e' = e
    · subst he
      obtain ⟨hp, hlt⟩ := h e'
      have hcur' : curSeq s e' ≤ curSeq (sstep s (SOp.add e' stream data)) e' := by
        rcases hcur with h1 | h1 <;> (rw [sstep, h1]; try omega)
      rcases hbuf with h1 | h1 | ⟨hne, mid, hmid, happ, hbump⟩
      · constructor
        · rw [sstep, h1]; exact hp
        · intro c hc2
          rw [sstep, h1] at hc2
          exact lt_of_lt_of_le (hlt c hc2) hcur'
      · constructor
        · rw [sstep, h1]
          exact hp.sublist (List.tail_sublist _)
        · intro c hc2
          rw [sstep, h1] at hc2
          exact lt_of_lt_of_le (hlt c ((List.tail_sublist _).subset hc2)) hcur'
      · have hmidP : mid.Pairwise seqLT ∧ ∀ c ∈ mid, c.seq < curSeq s e' := by
          rcases hmid with hm | hm
          · subst hm; exact ⟨hp, hlt⟩
          · subst hm
            exact ⟨hp.sublist (List.tail_sublist _),
              fun c hc2 => hlt c ((List.tail_sublist _).subset hc2)⟩
        constructor
        · rw [sstep, happ]
          refine List.pairwise_append.mpr ⟨hmidP.1, List.pairwise_singleton _ _, ?_⟩
          intro a ha b hbmem
          rw [List.mem_singleton] at hbmem
          subst hbmem
          exact hmidP.2 a ha
        · intro c hc2
          rw [sstep, happ] at hc2
          rw [sstep, hbump]
          rcases List.mem_append.mp hc2 with hcl | hcr
          · exact lt_trans (hmidP.2 c hcl) (by omega)
          · rw [List.mem_singleton] at hcr
            subst hcr
            simp [Chunk.seq]
    · obtain ⟨h1, h2, _⟩ := hframe e' he
      simpa [sstep, h1, h2] using h e'

theorem srun_SInv (t : List SOp) (s : OutputStreamer) (h : SInv s) :
    SInv (srun s t) := by
  induction t generalizing s with
  | nil => exact h
  | cons op t ih => exact ih _ (sstep_SInv s op h)

theorem mkStreamer_SInv (maxBuf : Int) (maxChunks : Nat) :
    SInv (mkStreamer maxBuf maxChunks) := by
  intro e
  constructor
  · simp [bufOf, mkStreamer, dgetD, dget]
  · intro c hc
    simp [bufOf, mkStreamer, dgetD, dget] at hc

theorem srun_append (s : OutputStreamer) (t1 t2 : List SOp) :
    srun s (t1 ++ t2) = srun (srun s t1) t2 := by
  induction t1 generalizing s with
  | nil => rfl
  | cons op t ih => simp [srun, ih]

/-! ### Completion-chunk placement under well-behaved traces -/

/-- Whether the operation is a `complete` for exec `e`. -/
def SOp.completesTo (e : String) : SOp → Bool
  | .complete e2 _ _ => e2 = e
  | _ => false

/-- A trace is quiet for `e` when it never appends a chunk for `e`. -/
def quiet (e : String) (t : List SOp) : Bool :=
  t.all (fun op => !op.appendsTo e)

/-- A trace is good for `e` when nothing more is appended for `e` after a
`complete` for `e` (the discipline the exec manager worker follows). -/
def good (e : String) : List SOp → Bool
  | [] => true
  | op :: t => if op.completesTo e then quiet e t else good e t

theorem completesTo_appendsTo {e : String} {op : SOp}
    (h : op.completesTo e = true) : op.appendsTo e = true := by
  cases op <;> simp_all [SOp.completesTo, SOp.appendsTo]

theorem quiet_good (e : String) (t : List SOp) (h : quiet e t = true) :
    good e t = true := by
  induction t with
  | nil => rfl
  | cons op t ih =>
    rw [quiet, List.all_cons, Bool.and_eq_true] at h
    have hq : op.appendsTo e = false := by
      cases hop : op.appendsTo e
      · rfl
      · rw [hop] at h; simp at h
    have hct : op.completesTo e = false := by
      cases hop : op.completesTo e
      · rfl
      · rw [completesTo_appendsTo hop] at hq; simp at hq
    rw [good, hct]
    simp only [Bool.false_eq_true, if_false]
    exact ih h.2

/-- A quiet operation leaves an exec buffer unchanged or empties it. -/
theorem quiet_step_buffer (s : OutputStreamer) (op : SOp) (e : String)
    (h : op.appendsTo e = false) :
    bufOf (sstep s op) e = bufOf s e ∨ bufOf (sstep s op) e = [] := by
  cases op with
  | init e2 =>
    obtain ⟨hframe, hcase⟩ := init_exec_shape s e2
    by_cases he : e = e2
    · subst he
      rcases hcase with heq | ⟨hb, _, _⟩
      · left; rw [sstep, heq]
      · right; exact hb
    · left; exact (hframe e (fun hc => he hc)).1
  | cleanup e2 =>
    obtain ⟨hframe, hb, _, _⟩ := cleanup_shape s e2
    by_cases he : e = e2
    · subst he; right; exact hb
    · left; exact (hframe e (fun hc => he hc)).1
  | add e2 stream data =>
    have hne : e2 ≠ e := by
      intro hc
      subst hc
      simp [SOp.appendsTo] at h
    obtain ⟨hframe, _, _, _⟩ := add_output_shape s e2 stream data
    left
    exact (hframe e (fun hc => hne hc.symm)).1
  | complete e2 code usage =>
    have hne : e2 ≠ e := by
      intro hc
      subst hc
      simp [SOp.appendsTo] at h
    obtain ⟨hframe, _, _, _⟩ := complete_shape s e2 code usage
    left
    exact (hframe e (fun hc => hne hc.symm)).1

/-- Along a quiet trace an exec buffer only loses chunks. -/
theorem quiet_srun_subset (t : List SOp) (s : OutputStreamer) (e : String)
    (h : quiet e t = true) :
    ∀ c ∈ bufOf (srun s t) e, c ∈ bufOf s e := by
  induction t generalizing s with
  | nil => exact fun c hc => hc
  | cons op t ih =>
    rw [quiet, List.all_cons, Bool.and_eq_true] at h
    have hq : op.appendsTo e = false := by
      cases hop : op.appendsTo e
      · rfl
      · rw [hop] at h; simp at h
    intro c hc
    have hc2 : c ∈ bufOf (sstep s op) e := ih (sstep s op) h.2 c hc
    rcases quiet_step_buffer s op e hq with heq | heq
    · rwa [heq] at hc2
    · rw [heq] at hc2
      exact absurd hc2 (List.not_mem_nil c)

/-- Output appends preserve done-freeness of a buffer. -/
theorem add_notDone (s : OutputStreamer) (e stream : String) (data : List Nat)
    (e' : String) (h : ∀ c ∈ bufOf s e', c.isDone = false) :
    ∀ c ∈ bufOf (s.add_output e stream data).1 e', c.isDone = false := by
  obtain ⟨hframe, _, _, hbuf⟩ := add_output_shape s e stream data
  by_cases he : e' = e
  · subst he
    rcases hbuf with h1 | h1 | ⟨_, mid, hmid, happ, _⟩
    · rw [h1]; exact h
    · rw [h1]
      exact fun c hc => h c ((List.tail_sublist _).subset hc)
    · rw [happ]
      intro c hc
      rcases List.mem_append.mp hc with hcl | hcr
      · rcases hmid with hm | hm
        · subst hm; exact h c hcl
        · subst hm; exact h c ((List.tail_sublist _).subset hcl)
      · rw [List.mem_singleton] at hcr
        subst hcr
        rfl
  · rw [(hframe e' he).1]
    exact h

/-- A buffer is done-free, or it is a done-free prefix followed by exactly
one completion chunk in last position. -/
def doneLast (l : List Chunk) : Prop :=
  (∀ c ∈ l, c.isDone = false) ∨
    ∃ pre dc, l = pre ++ [Chunk.done dc] ∧ ∀ c ∈ pre, c.isDone = false

/-- Main trace invariant: running the first part of a good trace yields a
buffer with the completion chunk (if any) in last position, and once a
completion chunk is present the rest of the trace must be quiet for `e`. -/
theorem good_trace_doneLast (t1 : List SOp) :
    ∀ (t2 : List SOp) (s : OutputStreamer) (e : String),
    good e (t1 ++ t2) = true →
    doneLast (bufOf s e) →
    ((bufOf s e).any Chunk.isDone = true → quiet e (t1 ++ t2) = true) →
    doneLast (bufOf (srun s t1) e) ∧
      ((bufOf (srun s t1) e).any Chunk.isDone = true → quiet e t2 = true) := by
  induction t1 with
  | nil =>
    intro t2 s e hg hdl hq
    exact ⟨hdl, fun hd => by simpa using hq hd⟩
  | cons op t1 ih =>
    intro t2 s e hg hdl hq
    have hnotdone : (bufOf s e).any Chunk.isDone = true → op.appendsTo e = false := by
      intro hd
      have := hq hd
      rw [List.cons_append, quiet, List.all_cons, Bool.and_eq_true] at this
      cases hop : op.appendsTo e
      · rfl
      · rw [hop] at this; simp at this
    by_cases hct : op.completesTo e = true
    · -- the operation completes e: the rest of the trace must be quiet
      have hbufdf : ∀ c ∈ bufOf s e, c.isDone = false := by
        by_cases hd : (bufOf s e).any Chunk.isDone = true
        · exact absurd (completesTo_appendsTo hct) (by rw [hnotdone hd]; simp)
        · intro c hc
          cases hcd : c.isDone
          · rfl
          · exact absurd (List.any_eq_true.mpr ⟨c, hc, hcd⟩) hd
      have hqrest : quiet e (t1 ++ t2) = true := by
        rw [List.cons_append, good, hct] at hg
        simpa using hg
      obtain ⟨e2, code, usage, hop⟩ : ∃ e2 code usage, op = SOp.complete e2 code usage := by
        cases op <;> simp_all [SOp.completesTo]
      have he2 : e2 = e := by
        rw [hop] at hct
        simpa [SOp.completesTo] using hct
      subst he2 hop
      obtain ⟨_, hb, _, _⟩ := complete_shape s e2 code usage
      have hdl2 : doneLast (bufOf (sstep s (SOp.complete e2 code usage)) e2) := by
        right
        exact ⟨bufOf s e2, _, by rw [sstep, hb], hbufdf⟩
      have := ih t2 (sstep s (SOp.complete e2 code usage)) e2
        (quiet_good _ _ hqrest) hdl2 (fun _ => hqrest)
      simpa only [srun] using this
    · have hg2 : good e (t1 ++ t2) = true := by
        rw [List.cons_append, good] at hg
        simpa [hct] using hg
      by_cases hap : op.appendsTo e = true
      · -- a pre-completion output append for e
        obtain ⟨e2, stream, data, hop⟩ : ∃ e2 stream data, op = SOp.add e2 stream data := by
          cases op <;> simp_all [SOp.appendsTo, SOp.completesTo]
        have he2 : e2 = e := by
          rw [hop] at hap
          simpa [SOp.appendsTo] using hap
        subst he2 hop
        have hbufdf : ∀ c ∈ bufOf s e2, c.isDone = false := by
          by_cases hd : (bufOf s e2).any Chunk.isDone = true
          · exact absurd hap (by rw [hnotdone hd]; simp)
          · intro c hc
            cases hcd : c.isDone
            · rfl
            · exact absurd (List.any_eq_true.mpr ⟨c, hc, hcd⟩) hd
        have hdf2 : ∀ c ∈ bufOf (sstep s (SOp.add e2 stream data)) e2, c.isDone = false :=
          add_notDone s e2 stream data e2 hbufdf
        have := ih t2 (sstep s (SOp.add e2 stream data)) e2 hg2 (Or.inl hdf2)
          (fun hd => by
            rcases List.any_eq_true.mp hd with ⟨c, hc, hcd⟩
            rw [hdf2 c hc] at hcd
            cases hcd)
        simpa only [srun] using this
      · -- a quiet operation
        have hap2 : op.appendsTo e = false := by
          cases hop : op.appendsTo e
          · rfl
          · exact absurd hop hap
        have hbuf2 := quiet_step_buffer s op e hap2
        have hdl2 : doneLast (bufOf (sstep s op) e) := by
          rcases hbuf2 with heq | heq
          · rwa [heq]
          · rw [heq]
            left
            intro c hc
            exact absurd hc (List.not_mem_nil c)
        have hq2 : (bufOf (sstep s op) e).any Chunk.isDone = true →
            quiet e (t1 ++ t2) = true := by
          intro hd
          rcases hbuf2 with heq | heq
          · rw [heq] at hd
            have := hq hd
            rw [List.cons_append, quiet, List.all_cons, Bool.and_eq_true] at this
            exact this.2
          · rw [heq] at hd
            simp at hd
        have := ih t2 (sstep s op) e hg2 hdl2 hq2
        simpa only [srun] using this

/-! ### Frame lemma at raw-dict level (needed for execs never initialized) -/

/-- A streamer call addressed to a different exec id never creates or
changes the raw `_buffers` entry of `e`. -/
theorem sstep_buffers_frame (s : OutputStreamer) (op : SOp) (e : String)
    (hne : op.execId ≠ e) :
    dget (sstep s op).buffers e = dget s.buffers e := by
  cases op with
  | init e2 =>
    have hne2 : e2 ≠ e := hne
    by_cases hk : hasKey s.buffers e2
    · simp [sstep, init_exec, hk]
    · simp [sstep, init_exec, hk, dget_dset_ne _ _ _ _ hne2]
  | cleanup e2 =>
    have hne2 : e2 ≠ e := hne
    simp [sstep, cleanup, dget_ddel_ne _ _ _ hne2]
  | complete e2 code usage =>
    have hne2 : e2 ≠ e := hne
    cases hb : dget s.buffers e2 with
    | none => simp [sstep, complete, hb, dget_dset_ne _ _ _ _ hne2]
    | some buf => simp [sstep, complete, hb, dget_dset_ne _ _ _ _ hne2]
  | add e2 stream data =>
    have hne2 : e2 ≠ e := hne
    show dget (s.add_output e2 stream data).1.buffers e = dget s.buffers e
    by_cases hd : data.isEmpty
    · simp [add_output, hd]
    · by_cases hcap : dgetD s.buffered_bytes e2 0 + (data.length : Int) > s.max_buffer_size
      · simp [add_output, hd, hcap]
      · obtain ⟨hseq1, hcomp1, _, _, hframe1, _⟩ := evictIfFull_shape s e2
        rcases hev : evictIfFull s e2 with ⟨s1, err⟩
        rw [hev] at hframe1
        dsimp only at hframe1
        have hrun : (s.add_output e2 stream data) =
            match (s1, err) with
            | (s1, some err) => (s1, .error err)
            | (s1, none) => enqueueChunk s1 e2 stream data := by
          simp [add_output, hd, hcap, hev]
        cases err with
        | some err =>
          simp only [hrun]
          exact hframe1 e hne2.symm
        | none =>
          obtain ⟨_, hframe2, _, _⟩ := enqueueChunk_shape s1 e2 stream data
          simp only [hrun]
          rw [(hframe2 e hne2.symm).1]
          exact hframe1 e hne2.symm

/-- A trace that never addresses `e` in any way. -/
def avoids (e : String) (t : List SOp) : Bool :=
  t.all (fun op => !(op.execId = e))

theorem avoids_buffers_absent (t : List SOp) (s : OutputStreamer) (e : String)
    (h : avoids e t = true) :
    dget (srun s t).buffers e = dget s.buffers e := by
  induction t generalizing s with
  | nil => rfl
  | cons op t ih =>
    rw [avoids, List.all_cons, Bool.and_eq_true] at h
    have hne : op.execId ≠ e := by
      intro hc
      rw [Bool.not_eq_true'] at h
      rcases h with ⟨h1, _⟩
      rw [hc] at h1
      simp at h1
    calc dget (srun (sstep s op) t).buffers e
        = dget (sstep s op).buffers e := ih (sstep s op) h.2
      _ = dget s.buffers e := sstep_buffers_frame s op e hne

/-- Claim C9: for an exec id that was never initialized in the output
streamer (no operation of any kind was ever performed for it), `poll` does
not fail: it returns the empty chunk list together with `complete = false`,
for every cursor value. -/
theorem C9_uninitialized_poll (maxBuf : Int) (maxChunks : Nat) (t : List SOp)
    (e : String) (k : Option Int) (h : avoids e t = true) :
    (srun (mkStreamer maxBuf maxChunks) t).poll e k = ([], false) := by
  have habsent : dget (srun (mkStreamer maxBuf maxChunks) t).buffers e = none := by
    rw [avoids_buffers_absent t _ e h]
    rfl
  rw [OutputStreamer.poll, habsent]

/-- Witness for C9 at a concrete trace touching only the exec "a". -/
theorem C9_witness :
    avoids "b" [SOp.init "a", SOp.add "a" "stdout" [104], SOp.complete "a" 0 []] = true ∧
    (srun (mkStreamer 100 10)
        [SOp.init "a", SOp.add "a" "stdout" [104], SOp.complete "a" 0 []]).poll "b" (some 5) =
      ([], false) :=
  ⟨by decide,
   C9_uninitialized_poll 100 10
     [SOp.init "a", SOp.add "a" "stdout" [104], SOp.complete "a" 0 []] "b" (some 5)
     (by decide)⟩

/-! ### Claim C10: empty appends and the non-empty-data invariant -/

/-- Every output chunk stored in any buffer has non-empty data. -/
def NoEmptyData (s : OutputStreamer) : Prop :=
  ∀ e oc, Chunk.out oc ∈ bufOf s e → oc.data ≠ []

theorem sstep_NoEmptyData (s : OutputStreamer) (op : SOp)
    (h : NoEmptyData s) : NoEmptyData (sstep s op) := by
  cases op with
  | init e =>
    obtain ⟨hframe, hcase⟩ := init_exec_shape s e
    intro e' oc hmem
    by_cases he : e' = e
    · subst he
      rcases hcase with heq | ⟨hb, _, _⟩
      · rw [sstep, heq] at hmem
        exact h e' oc hmem
      · rw [sstep, hb] at hmem
        exact absurd hmem (List.not_mem_nil _)
    · rw [sstep, (hframe e' he).1] at hmem
      exact h e' oc hmem
  | cleanup e =>
    obtain ⟨hframe, hb, _, _⟩ := cleanup_shape s e
    intro e' oc hmem
    by_cases he : e' = e
    · subst he
      rw [sstep, hb] at hmem
      exact absurd hmem (List.not_mem_nil _)
    · rw [sstep, (hframe e' he).1] at hmem
      exact h e' oc hmem
  | complete e code usage =>
    obtain ⟨hframe, hb, _, _⟩ := complete_shape s e code usage
    intro e' oc hmem
    by_cases he : e' = e
    · subst he
      rw [sstep, hb] at hmem
      rcases List.mem_append.mp hmem with hm | hm
      · exact h e' oc hm
      · rw [List.mem_singleton] at hm
        cases hm
    · rw [sstep, (hframe e' he).1] at hmem
      exact h e' oc hmem
  | add e stream data =>
    obtain ⟨hframe, _, _, hbuf⟩ := add_output_shape s e stream data
    intro e' oc hmem
    by_cases he : e' = e
    · subst he
      rcases hbuf with h1 | h1 | ⟨hdata, mid, hmid, happ, _⟩
      · rw [sstep, h1] at hmem
        exact h e' oc hmem
      · rw [sstep, h1] at hmem
        exact h e' oc ((List.tail_sublist _).subset hmem)
      · rw [sstep, happ] at hmem
        rcases List.mem_append.mp hmem with hm | hm
        · rcases hmid with hmEq | hmEq
          · subst hmEq; exact h e' oc hm
          · subst hmEq; exact h e' oc ((List.tail_sublist _).subset hm)
        · rw [List.mem_singleton] at hm
          cases hm
          exact hdata
    · rw [sstep, (hframe e' he).1] at hmem
      exact h e' oc hmem

/-- Claim C10: appending a chunk with empty data returns `None` and leaves
the whole streamer state (buffer contents, sequence counter, byte total,
completion flag) unchanged; consequently every output chunk ever stored in
any buffer has non-empty data — the invariant holds in the fresh streamer
and is preserved by every streamer operation. -/
theorem C10_empty_append_invariant :
    (∀ (s : OutputStreamer) (e stream : String),
      s.add_output e stream [] = (s, Except.ok none)) ∧
    (∀ (maxBuf : Int) (maxChunks : Nat), NoEmptyData (mkStreamer maxBuf maxChunks)) ∧
    (∀ (s : OutputStreamer) (op : SOp), NoEmptyData s → NoEmptyData (sstep s op)) := by
  refine ⟨fun s e stream => rfl, ?_, sstep_NoEmptyData⟩
  intro maxBuf maxChunks e oc hmem
  simp [bufOf, mkStreamer, dgetD, dget] at hmem

/-- Witness for C10: the invariant transported through a concrete step. -/
theorem C10_witness :
    NoEmptyData (sstep (mkStreamer 100 10) (SOp.add "e" "stdout" [104])) :=
  C10_empty_append_invariant.2.2 (mkStreamer 100 10) (SOp.add "e" "stdout" [104])
    (C10_empty_append_invariant.2.1 100 10)

/-! ### Claim C1: poll ordering and completion-chunk finality -/

/-- Chunks returned by `poll` all come from the buffer. -/
theorem poll_subset (s : OutputStreamer) (e : String) (k : Option Int) :
    ∀ c ∈ (s.poll e k).1, c ∈ bufOf s e := by
  intro c hc
  rw [poll_eq] at hc
  exact (List.mem_filter.mp hc).1

/-- The amended claim C1 at one instance: chunks polled after running `t1`
are strictly increasing above the cursor, and when a completion chunk is
returned it sits last and no poll after the rest `t2` of the trace returns
a higher sequence number. -/
def C1_statement (maxBuf : Int) (maxChunks : Nat) (t1 t2 : List SOp)
    (e : String) (k : Int) : Prop :=
  ((srun (mkStreamer maxBuf maxChunks) t1).poll e (some k)).1.Pairwise seqLT ∧
  (∀ c ∈ ((srun (mkStreamer maxBuf maxChunks) t1).poll e (some k)).1, k < c.seq) ∧
  ∀ dc, Chunk.done dc ∈ ((srun (mkStreamer maxBuf maxChunks) t1).poll e (some k)).1 →
    ((srun (mkStreamer maxBuf maxChunks) t1).poll e (some k)).1.getLast? =
      some (Chunk.done dc) ∧
    ∀ (k2 : Option Int) (c : Chunk),
      c ∈ ((srun (mkStreamer maxBuf maxChunks) (t1 ++ t2)).poll e k2).1 →
      c.seq ≤ dc.seq

/-- Claim C1 (amended): for every exec and cursor `k`, `poll(after_seq=k)`
returns only chunks with strictly increasing `seq > k`; and provided the
trace never appends for the exec after its completion (`good`, the
discipline the worker follows), a returned completion chunk is the last
chunk returned, and no later poll ever returns a higher sequence number.
The proviso is necessary: `add_output` and `complete` do not check the
completion flag, so a post-completion append produces later chunks (see the
counterexample to the unconditioned claim). -/
theorem C1_poll_ordering (maxBuf : Int) (maxChunks : Nat) (t1 t2 : List SOp)
    (e : String) (k : Int) (hg : good e (t1 ++ t2) = true) :
    C1_statement maxBuf maxChunks t1 t2 e k := by
  have hinv := srun_SInv t1 (mkStreamer maxBuf maxChunks)
    (mkStreamer_SInv maxBuf maxChunks)
  obtain ⟨hp, hlt⟩ := hinv e
  have hfilter : ((srun (mkStreamer maxBuf maxChunks) t1).poll e (some k)).1 =
      (bufOf (srun (mkStreamer maxBuf maxChunks) t1) e).filter
        (fun c => k < c.seq) := by
    rw [poll_eq]
  refine ⟨?_, ?_, ?_⟩
  · rw [hfilter]
    exact hp.filter _
  · intro c hc
    rw [hfilter] at hc
    exact of_decide_eq_true (List.mem_filter.mp hc).2
  · intro dc hdc
    rw [hfilter] at hdc
    have hdcbuf : Chunk.done dc ∈ bufOf (srun (mkStreamer maxBuf maxChunks) t1) e :=
      (List.mem_filter.mp hdc).1
    have hdck : decide (k < (Chunk.done dc).seq) = true := (List.mem_filter.mp hdc).2
    obtain ⟨hdl, hqt⟩ := good_trace_doneLast t1 t2 (mkStreamer maxBuf maxChunks) e hg
      (Or.inl (fun c hc => absurd hc (List.not_mem_nil c)))
      (by intro hd; simp [bufOf, mkStreamer, dgetD, dget] at hd)
    have hany : (bufOf (srun (mkStreamer maxBuf maxChunks) t1) e).any Chunk.isDone
        = true :=
      List.any_eq_true.mpr ⟨_, hdcbuf, rfl⟩
    have hquiet := hqt hany
    rcases hdl with hdf | ⟨pre, dc0, hsplit, hpredf⟩
    · have := hdf _ hdcbuf
      simp [Chunk.isDone] at this
    · have hdc0 : dc = dc0 := by
        rw [hsplit] at hdcbuf
        rcases List.mem_append.mp hdcbuf with hm | hm
        · have := hpredf _ hm
          simp [Chunk.isDone] at this
        · rw [List.mem_singleton] at hm
          exact Chunk.done.inj hm
      subst hdc0
      constructor
      · rw [hfilter, hsplit, List.filter_append]
        have hone : List.filter (fun c => decide (k < c.seq)) [Chunk.done dc]
            = [Chunk.done dc] := by
          simp only [List.filter, hdck]
        rw [hone, List.getLast?_concat]
      · intro k2 c hc
        have hcbuf :
            c ∈ bufOf (srun (mkStreamer maxBuf maxChunks) (t1 ++ t2)) e :=
          poll_subset _ e k2 c hc
        rw [srun_append] at hcbuf
        have hcs1 : c ∈ bufOf (srun (mkStreamer maxBuf maxChunks) t1) e :=
          quiet_srun_subset t2 _ e hquiet c hcbuf
        rw [hsplit] at hcs1
        rcases List.mem_append.mp hcs1 with hm | hm
        · have hp2 := hp
          rw [hsplit] at hp2
          have := (List.pairwise_append.mp hp2).2.2 c hm (Chunk.done dc)
            (List.mem_singleton_self _)
          exact le_of_lt this
        · rw [List.mem_singleton] at hm
          subst hm
          exact le_refl _

/-- Witness for C1 at a concrete good trace. -/
theorem C1_witness :
    good "e" ([SOp.init "e", SOp.add "e" "stdout" [104], SOp.complete "e" 0 []]
      ++ [SOp.cleanup "e"]) = true ∧
    C1_statement 100 10 [SOp.init "e", SOp.add "e" "stdout" [104], SOp.complete "e" 0 []]
      [SOp.cleanup "e"] "e" 0 :=
  ⟨by decide,
   C1_poll_ordering 100 10 [SOp.init "e", SOp.add "e" "stdout" [104], SOp.complete "e" 0 []]
     [SOp.cleanup "e"] "e" 0 (by decide)⟩

/-- Claim C1 exactly as frozen: the finality of a returned completion chunk
is asserted for every trace, with no condition on what runs after the
completion. -/
def C1_claim : Prop :=
  ∀ (maxBuf : Int) (maxChunks : Nat) (t1 t2 : List SOp) (e : String) (k : Int),
    ((srun (mkStreamer maxBuf maxChunks) t1).poll e (some k)).1.Pairwise seqLT ∧
    (∀ c ∈ ((srun (mkStreamer maxBuf maxChunks) t1).poll e (some k)).1, k < c.seq) ∧
    (∀ dc, Chunk.done dc ∈ ((srun (mkStreamer maxBuf maxChunks) t1).poll e (some k)).1 →
      ∀ (k2 : Option Int) (c : Chunk),
        c ∈ ((srun (mkStreamer maxBuf maxChunks) (t1 ++ t2)).poll e k2).1 →
        c.seq ≤ dc.seq)

/-- Counterexample to C1 as frozen: after `init; add; complete`, a poll with
cursor 0 returns the completion chunk (seq 1); a further `add_output` for the
same exec succeeds (the flag is never checked) and a later poll returns an
output chunk with seq 2 > 1. -/
theorem C1_counterexample : ¬ C1_claim := by
  intro h
  have := (h 100 10 [SOp.init "e", SOp.add "e" "stdout" [104], SOp.complete "e" 0 []]
      [SOp.add "e" "stdout" [105]] "e" 0).2.2
      { seq := 1, exit_code := 0, usage := [] } (by decide) (some 0)
      (Chunk.out { seq := 2, stream := "stdout", data := [105] }) (by decide)
  exact absurd this (by decide)

/-! ### Claim C5: eviction at the chunk cap -/

/-- A successful `enqueueChunk` appends exactly one output chunk to the
buffer it found. -/
theorem enqueueChunk_ok (s1 : OutputStreamer) (e stream : String)
    (data : List Nat) (s2 : OutputStreamer) (seq : Int) (rest : List Chunk)
    (hb : dget s1.buffers e = some rest)
    (h : enqueueChunk s1 e stream data = (s2, Except.ok (some seq))) :
    bufOf s2 e = rest ++ [Chunk.out { seq := seq, stream := stream, data := data }] := by
  cases hs : dget s1.sequences e with
  | none => simp [enqueueChunk, hs] at h
  | some q =>
    simp only [enqueueChunk, hs] at h
    simp only [hb] at h
    cases hbb : dget s1.buffered_bytes e with
    | none => simp only [hbb] at h; simp at h
    | some b =>
      simp only [hbb] at h
      simp only [Prod.mk.injEq, Except.ok.injEq, Option.some.injEq] at h
      obtain ⟨h1, h2⟩ := h
      subst h2
      rw [← h1]
      simp [bufOf, dgetD, dget_dset_self]

/-- Claim C5 (amended): when an `add_output` that succeeds in enqueuing hits
the chunk cap, the chunk evicted is always the oldest chunk in the buffer,
whatever its kind; in particular, when the buffer holds no completion chunk
(every exec before completion), the evicted chunk is the oldest output
chunk.  A completion chunk that is oldest is evicted all the same (see the
counterexample to the frozen wording). -/
theorem C5_evicts_oldest (s s2 : OutputStreamer) (e stream : String)
    (data : List Nat) (seq : Int)
    (h : s.add_output e stream data = (s2, Except.ok (some seq)))
    (hfull : (bufOf s e).length ≥ s.max_chunks) :
    ∃ oldest rest, bufOf s e = oldest :: rest ∧
      bufOf s2 e = rest ++ [Chunk.out { seq := seq, stream := stream, data := data }] ∧
      ((∀ c ∈ bufOf s e, c.isDone = false) → oldest.isDone = false) := by
  have hfull2 : (dgetD s.buffers e []).length ≥ s.max_chunks := hfull
  by_cases hd : data.isEmpty
  · simp [add_output, hd] at h
  · by_cases hcap : dgetD s.buffered_bytes e 0 + (data.length : Int) > s.max_buffer_size
    · simp [add_output, hd, hcap] at h
    · have hnodrop : s.add_output e stream data =
          match evictIfFull s e with
          | (s1, some err) => (s1, .error err)
          | (s1, none) => enqueueChunk s1 e stream data := by
        simp [add_output, hd, hcap]
      rw [hnodrop] at h
      cases hb : dget s.buffers e with
      | none =>
        have hev : evictIfFull s e = (s, some PyErr.keyError) := by
          simp [evictIfFull, hfull2, hb]
        rw [hev] at h
        simp at h
      | some buf =>
        have hbuf : bufOf s e = buf := by simp [bufOf, dgetD, hb]
        cases buf with
        | nil =>
          have hev : evictIfFull s e = (s, some PyErr.indexError) := by
            simp [evictIfFull, hfull2, hb]
          rw [hev] at h
          simp at h
        | cons oldest rest =>
          refine ⟨oldest, rest, hbuf, ?_,
            fun hdf => hdf oldest (by rw [hbuf]; exact List.mem_cons_self _ _)⟩
          cases oldest with
          | done c0 =>
            have hev : evictIfFull s e =
                ({ s with buffers := dset s.buffers e rest }, none) := by
              simp [evictIfFull, hfull2, hb]
            rw [hev] at h
            exact enqueueChunk_ok _ e stream data s2 seq rest (dget_dset_self _ _ _) h
          | out oc =>
            cases hbb : dget s.buffered_bytes e with
            | none =>
              have hev : evictIfFull s e =
                  ({ s with buffers := dset s.buffers e rest }, some PyErr.keyError) := by
                simp [evictIfFull, hfull2, hb, hbb]
              rw [hev] at h
              simp at h
            | some b =>
              have hev : evictIfFull s e = ({ s with buffers := dset s.buffers e rest, buffered_bytes := dset s.buffered_bytes e (b - oc.data.length) }, none) := by
                simp [evictIfFull, hfull2, hb, hbb]
              rw [hev] at h
              exact enqueueChunk_ok _ e stream data s2 seq rest (dget_dset_self _ _ _) h

/-- Witness for C5 at a concrete full buffer (cap 1). -/
theorem C5_witness :
    ∃ oldest rest,
      bufOf (srun (mkStreamer 100 1) [SOp.init "e", SOp.add "e" "s" [1]]) "e" =
        oldest :: rest ∧
      bufOf ((srun (mkStreamer 100 1)
          [SOp.init "e", SOp.add "e" "s" [1]]).add_output "e" "s" [2]).1 "e" =
        rest ++ [Chunk.out { seq := 1, stream := "s", data := [2] }] ∧
      ((∀ c ∈ bufOf (srun (mkStreamer 100 1) [SOp.init "e", SOp.add "e" "s" [1]]) "e",
          c.isDone = false) → oldest.isDone = false) :=
  C5_evicts_oldest _ _ "e" "s" [2] 1 (by rfl) (by decide)

/-- Claim C5 exactly as frozen, in its second half: a completion chunk
present in a buffer is never evicted by any append, whatever the buffer
contents and ordering. -/
def C5_claim : Prop :=
  ∀ (s : OutputStreamer) (e stream : String) (data : List Nat) (dc : CompletionChunk),
    Chunk.done dc ∈ bufOf s e →
    Chunk.done dc ∈ bufOf (s.add_output e stream data).1 e

/-- Counterexample to C5 as frozen: with cap 1, after `init; complete` the
buffer holds only the completion chunk; a further `add_output` evicts it
(the source pops the oldest chunk without checking its kind). -/
theorem C5_counterexample : ¬ C5_claim := by
  intro h
  have := h (srun (mkStreamer 100 1) [SOp.init "e", SOp.complete "e" 0 []])
    "e" "stdout" [1] { seq := 0, exit_code := 0, usage := [] } (by decide)
  exact absurd this (by decide)

/-! ## Exec manager (managers/exec_manager.py, repositories/execs.py) -/

/-- The `Exec` row of the durable store (models/execs.py; only the fields
the claims touch; `cmd`/`as_root` carry no behaviour here). -/
structure Exec : Type where
  exec_id : String
  container_id : String
  started_at : Int
  ended_at : Option Int := none
  exit_code : Option Int := none
  usage : Usage := []
  deriving DecidableEq

/-- `ExecRepository.complete_exec`: set `ended_at`, `exit_code`, and — only
for a truthy usage dict — `usage`, but only on a row found still active
(`ended_at is None`); otherwise no write happens. -/
def complete_exec (db : Dict Exec) (e : String) (now : Int) (code : Int)
    (usage : Usage) : Dict Exec :=
  match dget db e with
  | none => db
  | some row =>
    if row.ended_at = none then
      let row2 : Exec := { row with ended_at := some now, exit_code := some code, usage := if usage = [] then row.usage else usage }
      dset db e row2
    else db

/-- Python truthiness of `x or d` on an optional int: `None or d = d` and,
because `0` is falsy, `0 or d = d`; any other int stands. -/
def pyOrInt (x : Option Int) (d : Int) : Int :=
  match x with
  | none => d
  | some v => if v = 0 then d else v

/-- How the runtime exec turned out, as observed by `_execute_command`
after `exec_run` (or one of its exception branches). -/
inductive RunOutcome : Type
  | containerRowMissing
  | finished (exitCode : Int) (stdout : List Nat) (stderr : List Nat)
  | dockerNotFound
  | dockerApiError
  | timeout
  deriving DecidableEq

/-- `ExecManager._execute_command` from the runtime call onwards, acting on
the streamer and the Exec table.  `wallMs` stands for the measured wall
time, `timeoutS` for the configured timeout, `now` for the completion
timestamp.  The third component records whether the task raised: on the
early `return` for a missing container row, the `finally` block evaluates
`usage` before it was ever assigned, so the task dies of an unbound-local
error and the row is never updated. -/
def execute_worker (s : OutputStreamer) (db : Dict Exec) (e : String)
    (outcome : RunOutcome) (wallMs timeoutS now : Int) :
    OutputStreamer × Dict Exec × Bool :=
  match outcome with
  | .containerRowMissing => (s, db, true)
  | .finished ec stdout stderr =>
    let s := if stdout ≠ [] then (s.add_output e "stdout" stdout).1 else s
    let s := if stderr ≠ [] then (s.add_output e "stderr" stderr).1 else s
    let usage : Usage :=
      [("wall_ms", UVal.i wallMs), ("stdout_bytes", UVal.i stdout.length),
       ("stderr_bytes", UVal.i stderr.length)]
    -- finally: `if exit_code is not None: complete`; then
    -- `complete_exec(exec_id, exit_code or -1, usage)`
    let s := (s.complete e ec usage).1
    (s, complete_exec db e now (pyOrInt (some ec) (-1)) usage, false)
  | .dockerNotFound =>
    let usage : Usage := [("wall_ms", UVal.i wallMs)]
    let s := (s.complete e (-1) usage).1
    (s, complete_exec db e now (pyOrInt (some (-1)) (-1)) usage, false)
  | .dockerApiError =>
    let usage : Usage := [("wall_ms", UVal.i wallMs)]
    let s := (s.complete e (-1) usage).1
    (s, complete_exec db e now (pyOrInt (some (-1)) (-1)) usage, false)
  | .timeout =>
    let usage : Usage := [("wall_ms", UVal.i (timeoutS * 1000)), ("timeout", UVal.b true)]
    let s := (s.complete e (-1) usage).1
    (s, complete_exec db e now (pyOrInt (some (-1)) (-1)) usage, false)

/-- Streamer state for the C2 run: one initialized exec. -/
def c2S0 : OutputStreamer := srun (mkStreamer 100 10) [SOp.init "e_1"]

/-- Active row for the C2 run. -/
def c2Row : Exec := { exec_id := "e_1", container_id := "c_1", started_at := 0 }

/-- Exec table for the C2 run: one active row. -/
def c2Db0 : Dict Exec := [("e_1", c2Row)]

/-- Claim C2, evaluated at the failing input: a command that completes
normally with exit code 0 is recorded in the Exec row with `exit_code = -1`
(Python `exit_code or -1` treats 0 as falsy), although the completion chunk
emitted to the streamer carries the true exit code 0 and `ended_at` and the
usage record are set as claimed; a nonzero exit code (3) is recorded
exactly. -/
theorem C2_exit_zero_recorded_minus_one :
    (dget (execute_worker c2S0 c2Db0 "e_1"
        (RunOutcome.finished 0 [111, 107] []) 5 600 10).2.1 "e_1").map Exec.exit_code =
      some (some (-1)) ∧
    (dget (execute_worker c2S0 c2Db0 "e_1"
        (RunOutcome.finished 0 [111, 107] []) 5 600 10).2.1 "e_1").map Exec.ended_at =
      some (some 10) ∧
    (dget (execute_worker c2S0 c2Db0 "e_1"
        (RunOutcome.finished 0 [111, 107] []) 5 600 10).2.1 "e_1").map Exec.usage =
      some [("wall_ms", UVal.i 5), ("stdout_bytes", UVal.i 2), ("stderr_bytes", UVal.i 0)] ∧
    Chunk.done { seq := 1, exit_code := 0, usage := [("wall_ms", UVal.i 5), ("stdout_bytes", UVal.i 2), ("stderr_bytes", UVal.i 0)] } ∈
      bufOf (execute_worker c2S0 c2Db0 "e_1"
        (RunOutcome.finished 0 [111, 107] []) 5 600 10).1 "e_1" ∧
    (dget (execute_worker c2S0 c2Db0 "e_1"
        (RunOutcome.finished 3 [] []) 5 600 10).2.1 "e_1").map Exec.exit_code =
      some (some 3) := by
  decide

/-! ### Claim C6: cancelling an already-completed exec -/

/-- Errors `ExecManager.cancel` can surface. -/
inductive EmErr : Type
  | execNotFound (id : String)
  | raised (err : PyErr)
  deriving DecidableEq

/-- The bytes of the synthetic `b"[CANCELLED]\n"` chunk. -/
def cancelledMsg : List Nat := [91, 67, 65, 78, 67, 69, 76, 76, 69, 68, 93, 10]

/-- Process state of `ExecManager` as the cancel path sees it: the streamer,
the Exec table, the keys of `_active_execs` (the task objects themselves are
not modelled; `task.cancel()` only requests cancellation) and the
`_cancelled` flags. -/
structure ExecManager : Type where
  streamer : OutputStreamer
  db : Dict Exec
  active_execs : List String
  cancelled : Dict Bool
  deriving DecidableEq

/-- `ExecManager.cancel`: verify the row exists, set the cancelled flag,
and — only when the exec is still in `_active_execs` — cancel the task and
append the `[CANCELLED]` stderr chunk; then unconditionally call
`output_streamer.complete(exec_id, -2, {"cancelled": True})`. -/
def ExecManager.cancel (m : ExecManager) (e : String) :
    ExecManager × Except EmErr Unit :=
  match dget m.db e with
  | none => (m, .error (EmErr.execNotFound e))
  | some _ =>
    let m1 : ExecManager := { m with cancelled := dset m.cancelled e true }
    if e ∈ m1.active_execs then
      match m1.streamer.add_output e "stderr" cancelledMsg with
      | (s2, Except.error err) => ({ m1 with streamer := s2 }, .error (EmErr.raised err))
      | (s2, Except.ok _) =>
        let s3 := (s2.complete e (-2) [("cancelled", UVal.b true)]).1
        ({ m1 with streamer := s3 }, .ok ())
    else
      let s3 := (m1.streamer.complete e (-2) [("cancelled", UVal.b true)]).1
      ({ m1 with streamer := s3 }, .ok ())

/-- Claim C6 (amended): for an exec that has already completed (row has
`ended_at`/`exit_code` set, worker gone from `_active_execs`),
`cancel` leaves the Exec row — hence the recorded exit_code, usage and
ended_at — and the active set untouched and appends no `[CANCELLED]` output
chunk, but it is not a no-op on the stream: it appends one further
completion chunk with exit code -2 to the exec buffer. -/
theorem C6_cancel_completed (m : ExecManager) (e : String) (row : Exec)
    (hrow : dget m.db e = some row) (_hended : row.ended_at ≠ none)
    (hactive : e ∉ m.active_execs) :
    (m.cancel e).2 = .ok () ∧
    (m.cancel e).1.db = m.db ∧
    (m.cancel e).1.active_execs = m.active_execs ∧
    (m.cancel e).1.cancelled = dset m.cancelled e true ∧
    bufOf (m.cancel e).1.streamer e =
      bufOf m.streamer e ++
        [Chunk.done { seq := curSeq m.streamer e, exit_code := -2, usage := [("cancelled", UVal.b true)] }] ∧
    completedOf (m.cancel e).1.streamer e = true := by
  have hmem : (e ∈ m.active_execs) = False := by
    simp [hactive]
  obtain ⟨_, hb, _, hc⟩ := OutputStreamer.complete_shape m.streamer e (-2)
    [("cancelled", UVal.b true)]
  simp only [ExecManager.cancel, hrow, hmem, if_false]
  exact ⟨trivial, trivial, trivial, trivial, hb, hc⟩

/-- Row for the C6 instances: the exec completed with exit code 0
and its worker already removed from the active set. -/
def c6Row : Exec := { exec_id := "e", container_id := "c", started_at := 0, ended_at := some 1, exit_code := some 0, usage := [("wall_ms", UVal.i 5)] }

/-- Process state for the C6 instances, holding `c6Row`. -/
def c6M : ExecManager :=
  { streamer := srun (mkStreamer 100 10) [SOp.init "e", SOp.complete "e" 0 []]
    db := [("e", c6Row)]
    active_execs := []
    cancelled := [] }

/-- Witness for C6 (amended) at the concrete completed exec. -/
theorem C6_witness :
    (c6M.cancel "e").2 = .ok () ∧
    (c6M.cancel "e").1.db = c6M.db ∧
    (c6M.cancel "e").1.active_execs = c6M.active_execs ∧
    (c6M.cancel "e").1.cancelled = dset c6M.cancelled "e" true ∧
    bufOf (c6M.cancel "e").1.streamer "e" =
      bufOf c6M.streamer "e" ++
        [Chunk.done { seq := curSeq c6M.streamer "e", exit_code := -2, usage := [("cancelled", UVal.b true)] }] ∧
    completedOf (c6M.cancel "e").1.streamer "e" = true :=
  C6_cancel_completed c6M "e" c6Row (by decide) (by decide) (by decide)

/-- Claim C6 exactly as frozen: cancel of an already-completed exec is a
no-op — it appends no further chunk to the buffer and leaves the recorded
state unchanged. -/
def C6_claim : Prop :=
  ∀ (m : ExecManager) (e : String) (row : Exec),
    dget m.db e = some row → row.ended_at ≠ none → e ∉ m.active_execs →
    completedOf m.streamer e = true →
    (m.cancel e).1.db = m.db ∧
    bufOf (m.cancel e).1.streamer e = bufOf m.streamer e

/-- Counterexample to C6 as frozen: on a completed exec, `cancel` still
calls `complete(exec_id, -2, ...)` unconditionally and a second completion
chunk lands in the buffer. -/
theorem C6_counterexample : ¬ C6_claim := by
  intro h
  have := (h c6M "e" c6Row (by decide) (by decide) (by decide) (by decide)).2
  exact absurd this (by decide)

/-! ## Filesystem manager (managers/filesystem_manager.py) -/

/-- Does the character list start with the given pattern (`str.startswith`)? -/
def listLead : List Char → List Char → Bool
  | [], _ => true
  | _ :: _, [] => false
  | p :: ps, c :: cs => p = c && listLead ps cs

/-- Python `s.startswith(pre)`. -/
def pyStartsWith (s pre : String) : Bool := listLead pre.data s.data

/-- Python `s.split("/")` on character lists: `"".split("/") == [""]`,
`"/a".split("/") == ["", "a"]`. -/
def splitOnSlash : List Char → List (List Char)
  | [] => [[]]
  | c :: cs =>
    if c = '/' then [] :: splitOnSlash cs
    else
      match splitOnSlash cs with
      | [] => [[c]]
      | g :: gs => (c :: g) :: gs

/-- Python `"/".join(groups)` on character lists. -/
def joinSlash : List (List Char) → List Char
  | [] => []
  | [g] => g
  | g :: gs => g ++ '/' :: joinSlash gs

/-- `posixpath.normpath`, translated from CPython: empty path becomes `"."`;
one leading slash is kept (two become two, three or more become one);
`""` and `"."` components are dropped; `".."` pops the previous component
except at an absolute root or after a kept `".."`. -/
def normpath (path : String) : String :=
  if path = "" then "."
  else
    let cs := path.data
    let initialSlashes : Nat :=
      if listLead ['/'] cs then
        if listLead ['/', '/'] cs && !listLead ['/', '/', '/'] cs then 2 else 1
      else 0
    let newComps := (splitOnSlash cs).foldl
      (fun acc comp =>
        if comp = [] ∨ comp = ['.'] then acc
        else if comp ≠ ['.', '.'] ∨ (initialSlashes = 0 ∧ acc = []) ∨
            (acc ≠ [] ∧ acc.getLast? = some ['.', '.']) then acc ++ [comp]
        else if acc ≠ [] then acc.dropLast
        else acc) []
    let res := List.replicate initialSlashes '/' ++ joinSlash newComps
    if res = [] then "." else String.mk res

/-- `posixpath.join(a, b)` for two arguments. -/
def pyJoin (a b : String) : String :=
  if listLead ['/'] b.data then b
  else if a.data = [] ∨ a.data.getLast? = some '/' then String.mk (a.data ++ b.data)
  else String.mk (a.data ++ '/' :: b.data)

/-- `FilesystemManager.WORKSPACE_ROOT`. -/
def WORKSPACE_ROOT : String := "/workspace"

/-- Reasons carried by `PathSecurityError` (the source formats them as
strings; we keep them as symbols). -/
inductive PathReason : Type
  | notUnderWorkspace
  | dotDotComponents
  | cannotDeleteRoot
  deriving DecidableEq

/-- Errors of the filesystem manager that the claims touch.  The batch
pre-check early-returns build message strings rather than exceptions; they
are kept as the two `batch...` symbols. -/
inductive FsErr : Type
  | pathSecurity (path : String) (reason : PathReason)
  | fileNotFound (path : String)
  | fileConflict (path : String) (expected actual : String)
  | valueError
  | batchEtagMismatch (path : String) (expected actual : String)
  | batchFileNotFound (path : String)
  deriving DecidableEq

/-- The absolutization step of `_validate_path`:
`if not path.startswith("/"): path = posixpath.join(self.WORKSPACE_ROOT, path)`. -/
def absolutize (path : String) : String :=
  if !pyStartsWith path "/" then pyJoin WORKSPACE_ROOT path else path

/-- `FilesystemManager._validate_path`: absolutize, normalize, require the
result to start with the string `"/workspace"`, and re-check for `".."`
components. -/
def validate_path (path : String) : Except FsErr String :=
  let normalized := normpath (absolutize path)
  if !pyStartsWith normalized WORKSPACE_ROOT then
    .error (.pathSecurity path .notUnderWorkspace)
  else if (splitOnSlash normalized.data).contains ['.', '.'] then
    .error (.pathSecurity path .dotDotComponents)
  else .ok normalized

/-- Workspace contents of one container: normalized path to file bytes.
Directories carry no modelled state (`mkdir -p` in write always succeeds,
`rm -rf` removes recursively). -/
abbrev FsState : Type := Dict (List Nat)

/-- `FilesystemManager.read` against the modelled workspace: validate, then
stat+cat (a missing path raises `FileNotFoundError` carrying the original
path).  The etag is the supplied deterministic function of the content (the
source hashes content plus mtime; mtime is not modelled). -/
def fsRead (etagOf : List Nat → String) (fs : FsState) (path : String) :
    Except FsErr (List Nat × String) :=
  match validate_path path with
  | .error e => .error e
  | .ok normalized =>
    match dget fs normalized with
    | none => .error (.fileNotFound path)
    | some content => .ok (content, etagOf content)

/-- `FilesystemManager.write`: validate; when a truthy `if_match_etag` is
supplied and the file exists with a different etag raise
`FileConflictError` (a missing file passes); create parents (no modelled
state) and put the archive, returning the new etag. -/
def fsWrite (etagOf : List Nat → String) (fs : FsState) (path : String)
    (content : List Nat) (ifMatch : Option String) :
    Except FsErr (FsState × String) :=
  match validate_path path with
  | .error e => .error e
  | .ok normalized =>
    let conflict : Option FsErr :=
      match ifMatch with
      | none => none
      | some m =>
        if m = "" then none
        else
          match dget fs normalized with
          | none => none
          | some existing =>
            if etagOf existing ≠ m then
              some (.fileConflict path m (etagOf existing))
            else none
    match conflict with
    | some e => .error e
    | none => .ok (dset fs normalized content, etagOf content)

/-- `FilesystemManager.delete`: validate, reject the workspace root, then
`rm -rf` — which exits 0 also for a missing path, so no
`FileNotFoundError` arises from the removal itself. -/
def fsDelete (fs : FsState) (path : String) : Except FsErr FsState :=
  match validate_path path with
  | .error e => .error e
  | .ok normalized =>
    if normalized = WORKSPACE_ROOT then
      .error (.pathSecurity path .cannotDeleteRoot)
    else .ok (ddel fs normalized)

/-- Claim C8 (amended): validation accepts exactly the paths whose
normalized form starts with the string `"/workspace"` — not the path prefix
`/workspace/`: `/workspace/../etc/passwd` and the relative `../x` fail
`PathSecurityError` as claimed, but the empty string is accepted (it
normalizes to `/workspace`) and so is a sibling such as `/workspacefoo`;
Delete additionally rejects `/workspace` itself. -/
theorem C8_path_validation :
    (∀ p s, validate_path p = .ok s →
      pyStartsWith s WORKSPACE_ROOT = true ∧ s = normpath (absolutize p)) ∧
    (∀ p, pyStartsWith (normpath (absolutize p)) WORKSPACE_ROOT = false →
      validate_path p = .error (.pathSecurity p .notUnderWorkspace)) ∧
    validate_path "/workspace/../etc/passwd" =
      .error (.pathSecurity "/workspace/../etc/passwd" .notUnderWorkspace) ∧
    validate_path "../x" = .error (.pathSecurity "../x" .notUnderWorkspace) ∧
    validate_path "" = .ok "/workspace" ∧
    validate_path "/workspacefoo" = .ok "/workspacefoo" ∧
    (∀ fs : FsState, fsDelete fs "/workspace" =
      .error (.pathSecurity "/workspace" .cannotDeleteRoot)) := by
  refine ⟨?_, ?_, by decide, by decide, by decide, by decide, ?_⟩
  · intro p s h
    simp only [validate_path] at h
    by_cases h1 : pyStartsWith (normpath (absolutize p)) WORKSPACE_ROOT = true
    · simp only [h1, Bool.not_true, Bool.false_eq_true, if_false] at h
      by_cases h2 : (splitOnSlash (normpath (absolutize p)).data).contains ['.', '.'] = true
      · rw [if_pos h2] at h
        cases h
      · simp only [h2, if_false] at h
        cases h
        exact ⟨h1, rfl⟩
    · simp [h1] at h
  · intro p h1
    simp only [validate_path]
    rw [h1]
    rfl
  · intro fs
    unfold fsDelete
    rw [show validate_path "/workspace" = .ok "/workspace" from by decide]
    rfl

/-- Claim C8 exactly as frozen: every path whose normalized form does not
begin with `/workspace/` and is not `/workspace` fails, and in particular
the empty string fails `PathSecurityError`. -/
def C8_claim : Prop :=
  (∀ p, pyStartsWith (normpath (absolutize p)) "/workspace/" = false →
    normpath (absolutize p) ≠ "/workspace" →
    ∃ r, validate_path p = .error (FsErr.pathSecurity p r)) ∧
  (∃ r, validate_path "/workspace/../etc/passwd" =
    .error (FsErr.pathSecurity "/workspace/../etc/passwd" r)) ∧
  (∃ r, validate_path "../x" = .error (FsErr.pathSecurity "../x" r)) ∧
  (∃ r, validate_path "" = .error (FsErr.pathSecurity "" r)) ∧
  (∀ fs : FsState, ∃ r, fsDelete fs "/workspace" =
    .error (FsErr.pathSecurity "/workspace" r))

/-- Counterexample to C8 as frozen: the empty string passes validation and
normalizes to `/workspace` (also `/workspacefoo` passes, refuting the
general clause; the empty string suffices). -/
theorem C8_counterexample : ¬ C8_claim := by
  intro h
  obtain ⟨r, hr⟩ := h.2.2.2.1
  rw [show validate_path "" = .ok "/workspace" from by decide] at hr
  cases hr

/-! ### Batch operations (FilesystemManager.batch and _rollback_operations) -/

/-- `OperationType` from filesystem_manager.py. -/
inductive OperationType : Type
  | read
  | write
  | delete
  | move
  | copy
  deriving DecidableEq

/-- `BatchOperation` from filesystem_manager.py. -/
structure BatchOperation : Type where
  op_type : OperationType
  path : String
  content : Option (List Nat) := none
  dest_path : Option String := none
  if_match_etag : Option String := none
  deriving DecidableEq

/-- The payload carried by a successful operation result (`data` in the
source: read content+info, write etag, move/copy destination). -/
inductive ResData : Type
  | readData (content : List Nat) (etag : String)
  | etag (etag : String)
  | dest (path : String)
  deriving DecidableEq

/-- `OperationResult` from filesystem_manager.py. -/
structure OperationResult : Type where
  success : Bool
  op_type : OperationType
  path : String
  data : Option ResData := none
  error : Option FsErr := none
  deriving DecidableEq

/-- `BatchResult` from filesystem_manager.py. -/
structure BatchResult : Type where
  success : Bool
  results : List OperationResult
  rollback_performed : Bool := false
  error : Option FsErr := none
  deriving DecidableEq

/-- The rollback journal: `(path, original_content_or_None)` entries. -/
abbrev Journal : Type := List (String × Option (List Nat))

/-- The up-front path validation loop of `batch`: validate `op.path`, and a
truthy `op.dest_path`, for every operation; the first error raised is the
one the outer `except Exception` turns into the returned BatchResult. -/
def opValidationError (op : BatchOperation) : Option FsErr :=
  match validate_path op.path with
  | .error e => some e
  | .ok _ =>
    match op.dest_path with
    | none => none
    | some d =>
      if d = "" then none
      else
        match validate_path d with
        | .error e => some e
        | .ok _ => none

/-- The ETag pre-check loop of `batch`: for each WRITE or DELETE with a
truthy `if_match_etag`, read the file; a mismatch or a missing non-WRITE
target early-returns a failed BatchResult with empty results and
`rollback_performed` left false.  Any other read error propagates to the
outer handler, which returns the same shape. -/
def precheck (etagOf : List Nat → String) (fs : FsState) :
    List BatchOperation → Option BatchResult
  | [] => none
  | op :: rest =>
    let needs := (match op.if_match_etag with
        | some m => !(m = "")
        | none => false) &&
      (op.op_type = OperationType.write || op.op_type = OperationType.delete)
    if needs then
      match op.if_match_etag with
      | some m =>
        match fsRead etagOf fs op.path with
        | .ok (_, etag) =>
          if etag ≠ m then
            some { success := false, results := [], error := some (.batchEtagMismatch op.path m etag) }
          else precheck etagOf fs rest
        | .error (.fileNotFound _) =>
          if op.op_type ≠ OperationType.write then
            some { success := false, results := [], error := some (.batchFileNotFound op.path) }
          else precheck etagOf fs rest
        | .error e => some { success := false, results := [], error := some e }
      | none => precheck etagOf fs rest
    else precheck etagOf fs rest

/-- One iteration of the execution loop of `batch`.  Journal pushes happen
before the mutation they guard, exactly as in the source, so a failing
mutation leaves its own entries in the journal; a failing pre-read does
not.  Returns the filesystem, the journal, and the result or the caught
exception. -/
def execOp (etagOf : List Nat → String) (fs : FsState) (journal : Journal)
    (op : BatchOperation) : FsState × Journal × Except FsErr OperationResult :=
  match op.op_type with
  | .read =>
    match fsRead etagOf fs op.path with
    | .error e => (fs, journal, .error e)
    | .ok (c, etag) =>
      (fs, journal,
        .ok { success := true, op_type := .read, path := op.path, data := some (.readData c etag) })
  | .write =>
    match fsRead etagOf fs op.path with
    | .ok (c, _) => execWriteTail etagOf fs (journal ++ [(op.path, some c)]) op
    | .error (.fileNotFound _) => execWriteTail etagOf fs (journal ++ [(op.path, none)]) op
    | .error e => (fs, journal, .error e)
  | .delete =>
    match fsRead etagOf fs op.path with
    | .ok (c, _) => execDeleteTail fs (journal ++ [(op.path, some c)]) op
    | .error (.fileNotFound _) => execDeleteTail fs (journal ++ [(op.path, none)]) op
    | .error e => (fs, journal, .error e)
  | .move =>
    match op.dest_path with
    | none => (fs, journal, .error .valueError)
    | some dest =>
      if dest = "" then (fs, journal, .error .valueError)
      else
        match fsRead etagOf fs op.path with
        | .error e => (fs, journal, .error e)
        | .ok (c, _) =>
          let j := journal ++ [(op.path, some c), (dest, none)]
          match fsWrite etagOf fs dest c none with
          | .error e => (fs, j, .error e)
          | .ok (fs2, _) =>
            match fsDelete fs2 op.path with
            | .error e => (fs2, j, .error e)
            | .ok fs3 =>
              (fs3, j,
                .ok { success := true, op_type := .move, path := op.path, data := some (.dest dest) })
  | .copy =>
    match op.dest_path with
    | none => (fs, journal, .error .valueError)
    | some dest =>
      if dest = "" then (fs, journal, .error .valueError)
      else
        match fsRead etagOf fs op.path with
        | .error e => (fs, journal, .error e)
        | .ok (c, _) =>
          let j := journal ++ [(dest, none)]
          match fsWrite etagOf fs dest c none with
          | .error e => (fs, j, .error e)
          | .ok (fs2, _) =>
            (fs2, j,
              .ok { success := true, op_type := .copy, path := op.path, data := some (.dest dest) })
where
  /-- The write after journaling (a None content raises, as `len(None)`
  does in the source). -/
  execWriteTail (etagOf : List Nat → String) (fs : FsState) (j : Journal)
      (op : BatchOperation) : FsState × Journal × Except FsErr OperationResult :=
    match op.content with
    | none => (fs, j, .error .valueError)
    | some content =>
      match fsWrite etagOf fs op.path content op.if_match_etag with
      | .error e => (fs, j, .error e)
      | .ok (fs2, etag) =>
        (fs2, j, .ok { success := true, op_type := .write, path := op.path, data := some (.etag etag) })
  /-- The delete after journaling. -/
  execDeleteTail (fs : FsState) (j : Journal) (op : BatchOperation) :
      FsState × Journal × Except FsErr OperationResult :=
    match fsDelete fs op.path with
    | .error e => (fs, j, .error e)
    | .ok fs2 => (fs2, j, .ok { success := true, op_type := .delete, path := op.path })

/-- `FilesystemManager._rollback_operations`: replay the journal in reverse;
entries recorded as absent are deleted, entries with recorded content are
rewritten; every per-entry error is swallowed and the replay continues. -/
def rollback_operations (etagOf : List Nat → String) (fs : FsState)
    (journal : Journal) : FsState :=
  journal.reverse.foldl
    (fun fs entry =>
      match entry.2 with
      | none =>
        match fsDelete fs entry.1 with
        | .ok fs2 => fs2
        | .error _ => fs
      | some c =>
        match fsWrite etagOf fs entry.1 c none with
        | .ok (fs2, _) => fs2
        | .error _ => fs)
    fs

/-- The execution loop of `batch`: run operations in order, journaling; on
the first failure replay the journal, append the failing result and return
with `rollback_performed := true`. -/
def goBatch (etagOf : List Nat → String) (fs : FsState)
    (results : List OperationResult) (journal : Journal) :
    List BatchOperation → FsState × BatchResult
  | [] => (fs, { success := true, results := results })
  | op :: rest =>
    match execOp etagOf fs journal op with
    | (fs2, j2, .ok res) => goBatch etagOf fs2 (results ++ [res]) j2 rest
    | (fs2, j2, .error e) =>
      (rollback_operations etagOf fs2 j2,
        { success := false
          results := results ++ [{ success := false, op_type := op.op_type, path := op.path, error := some e }]
          rollback_performed := true
          error := some e })

/-- Reference recomputation of the execution loop up to the first failure:
final filesystem, journal, and the error if one occurred.  `goBatch`
computes the same states (proved below); this form lets the main theorem
speak about the journal that `batch` replayed. -/
def execSeq (etagOf : List Nat → String) (fs : FsState) (journal : Journal) :
    List BatchOperation → FsState × Journal × Option FsErr
  | [] => (fs, journal, none)
  | op :: rest =>
    match execOp etagOf fs journal op with
    | (fs2, j2, .ok _) => execSeq etagOf fs2 j2 rest
    | (fs2, j2, .error e) => (fs2, j2, some e)

/-- `FilesystemManager.batch`: validate all paths (failures land in the
outer `except Exception`, which returns a failed BatchResult with the
results so far — none), pre-check ETags (early return), then execute with
journaling and rollback.  Staging-directory creation and cleanup live in
`/tmp`, outside the modelled workspace. -/
def batch (etagOf : List Nat → String) (fs : FsState)
    (ops : List BatchOperation) : FsState × BatchResult :=
  match ops.findSome? opValidationError with
  | some e => (fs, { success := false, results := [], error := some e })
  | none =>
    match precheck etagOf fs ops with
    | some r => (fs, r)
    | none => goBatch etagOf fs [] [] ops

/-- A result the execution loop reports as ok carries `success := true`. -/
theorem execOp_ok_success (etagOf : List Nat → String) (fs : FsState)
    (journal : Journal) (op : BatchOperation) (fs2 : FsState) (j2 : Journal)
    (res : OperationResult)
    (h : execOp etagOf fs journal op = (fs2, j2, Except.ok res)) :
    res.success = true := by
  cases hop : op.op_type <;>
    simp only [execOp, execOp.execWriteTail, execOp.execDeleteTail, hop] at h <;>
    (repeat' split at h) <;>
    simp_all <;>
    (obtain ⟨h1, h2, hres⟩ := h; rw [← hres])

/-- An early return of the ETag pre-check is a failed result with no
per-operation results and no rollback. -/
theorem precheck_shape (etagOf : List Nat → String) (fs : FsState) :
    ∀ (ops : List BatchOperation) (r : BatchResult),
    precheck etagOf fs ops = some r →
    r.success = false ∧ r.results = [] ∧ r.rollback_performed = false := by
  intro ops
  induction ops with
  | nil => intro r h; exact Option.noConfusion h
  | cons op rest ih =>
    intro r h
    unfold precheck at h
    dsimp only at h
    repeat' split at h
    all_goals first
      | (cases h; exact ⟨rfl, rfl, rfl⟩)
      | (exact ih _ h)

/-- Specification of the execution loop: either every operation succeeded
(no rollback, one success result each), or the loop stopped at the first
failing operation, rolled the journal back, and reported the successful
prefix plus one failing result. -/
theorem goBatch_spec (etagOf : List Nat → String) :
    ∀ (ops : List BatchOperation) (fs : FsState)
      (results : List OperationResult) (journal : Journal),
    (∀ res ∈ results, res.success = true) →
    ((goBatch etagOf fs results journal ops).2.success = true ∧
      (goBatch etagOf fs results journal ops).2.results.length =
        results.length + ops.length ∧
      (∀ res ∈ (goBatch etagOf fs results journal ops).2.results, res.success = true) ∧
      (goBatch etagOf fs results journal ops).2.rollback_performed = false ∧
      (goBatch etagOf fs results journal ops).2.error = none) ∨
    ((goBatch etagOf fs results journal ops).2.success = false ∧
      (goBatch etagOf fs results journal ops).2.rollback_performed = true ∧
      ∃ k, k < ops.length ∧
        (goBatch etagOf fs results journal ops).2.results.length =
          results.length + k + 1 ∧
        (∀ res ∈ (goBatch etagOf fs results journal ops).2.results.dropLast,
          res.success = true) ∧
        (∃ res, (goBatch etagOf fs results journal ops).2.results.getLast? = some res ∧
          res.success = false) ∧
        (goBatch etagOf fs results journal ops).1 = rollback_operations etagOf
          (execSeq etagOf fs journal (ops.take (k + 1))).1
          (execSeq etagOf fs journal (ops.take (k + 1))).2.1) := by
  intro ops
  induction ops with
  | nil =>
    intro fs results journal hall
    left
    exact ⟨rfl, by simp [goBatch], fun res hres => hall res hres, rfl, rfl⟩
  | cons op rest ih =>
    intro fs results journal hall
    rcases hexec : execOp etagOf fs journal op with ⟨fs2, j2, r⟩
    cases r with
    | ok res =>
      have hsucc : res.success = true :=
        execOp_ok_success etagOf fs journal op fs2 j2 res hexec
      have hall2 : ∀ x ∈ results ++ [res], x.success = true := by
        intro x hx
        rcases List.mem_append.mp hx with hx | hx
        · exact hall x hx
        · rw [List.mem_singleton] at hx
          subst hx
          exact hsucc
      have hstep : goBatch etagOf fs results journal (op :: rest) =
          goBatch etagOf fs2 (results ++ [res]) j2 rest := by
        simp [goBatch, hexec]
      have hseq : ∀ t, execSeq etagOf fs journal (op :: t) = execSeq etagOf fs2 j2 t := by
        intro t
        simp [execSeq, hexec]
      rcases ih fs2 (results ++ [res]) j2 hall2 with
        ⟨h1, h2, h3, h4, h5⟩ | ⟨h1, h2, k, hk, hlen, hdrop, hlast, hfs⟩
      · left
        rw [hstep]
        refine ⟨h1, ?_, h3, h4, h5⟩
        rw [h2]
        simp
        omega
      · right
        rw [hstep]
        refine ⟨h1, h2, k + 1, by simpa using Nat.succ_lt_succ hk, ?_, hdrop, hlast, ?_⟩
        · rw [hlen]
          simp
          omega
        · rw [hfs, List.take_succ_cons, hseq]
    | error e =>
      right
      have hstep : goBatch etagOf fs results journal (op :: rest) =
          (rollback_operations etagOf fs2 j2,
            { success := false
              results := results ++
                [{ success := false, op_type := op.op_type, path := op.path, error := some e }]
              rollback_performed := true
              error := some e }) := by
        simp [goBatch, hexec]
      rw [hstep]
      refine ⟨rfl, rfl, 0, Nat.succ_pos _, by simp, ?_, ?_, ?_⟩
      · rw [List.dropLast_concat]
        exact hall
      · refine ⟨_, List.getLast?_concat _, rfl⟩
      · have : execSeq etagOf fs journal ((op :: rest).take 1) = (fs2, j2, some e) := by
          simp [execSeq, hexec]
        rw [this]

/-- Claim C3 (amended): for every batch, exactly one of three outcomes:
(a) every operation reports success, with no rollback; (b) the operations
up to the first failure report success, the failing one reports failure,
the journal built so far is replayed in reverse over the partial state
(delete entries recorded absent, rewrite recorded content, errors
swallowed) and the BatchResult carries the partial results with
`rollback_performed = true`; or (c) the batch failed up front — a path
failed validation or an ETag pre-check failed — and it returns empty
results, `rollback_performed = false`, and an untouched filesystem. -/
theorem C3_batch_trichotomy (etagOf : List Nat → String) (fs : FsState)
    (ops : List BatchOperation) :
    ((batch etagOf fs ops).2.success = true ∧
      (batch etagOf fs ops).2.results.length = ops.length ∧
      (∀ res ∈ (batch etagOf fs ops).2.results, res.success = true) ∧
      (batch etagOf fs ops).2.rollback_performed = false) ∨
    ((batch etagOf fs ops).2.success = false ∧
      (batch etagOf fs ops).2.rollback_performed = true ∧
      ∃ k, k < ops.length ∧ (batch etagOf fs ops).2.results.length = k + 1 ∧
        (∀ res ∈ (batch etagOf fs ops).2.results.dropLast, res.success = true) ∧
        (∃ res, (batch etagOf fs ops).2.results.getLast? = some res ∧
          res.success = false) ∧
        (batch etagOf fs ops).1 = rollback_operations etagOf
          (execSeq etagOf fs [] (ops.take (k + 1))).1
          (execSeq etagOf fs [] (ops.take (k + 1))).2.1) ∨
    ((batch etagOf fs ops).2.success = false ∧
      (batch etagOf fs ops).2.rollback_performed = false ∧
      (batch etagOf fs ops).2.results = [] ∧ (batch etagOf fs ops).1 = fs) := by
  cases hval : ops.findSome? opValidationError with
  | some e =>
    right; right
    simp [batch, hval]
  | none =>
    cases hpre : precheck etagOf fs ops with
    | some r =>
      right; right
      obtain ⟨h1, h2, h3⟩ := precheck_shape etagOf fs ops r hpre
      simp [batch, hval, hpre, h1, h2, h3]
    | none =>
      have hb : batch etagOf fs ops = goBatch etagOf fs [] [] ops := by
        simp [batch, hval, hpre]
      rw [hb]
      rcases goBatch_spec etagOf ops fs [] [] (by intro res h; cases h) with
        ⟨h1, h2, h3, h4, _⟩ | ⟨h1, h2, k, hk, hlen, hdrop, hlast, hfs⟩
      · left
        refine ⟨h1, ?_, h3, h4⟩
        simpa using h2
      · right; left
        exact ⟨h1, h2, k, hk, by simpa using hlen, hdrop, hlast, hfs⟩

/-- Claim C3 exactly as frozen: every batch either has all operations
reporting success with no rollback, or has at least one failing operation
result with `rollback_performed = true`. -/
def C3_claim : Prop :=
  ∀ (etagOf : List Nat → String) (fs : FsState) (ops : List BatchOperation),
    ((batch etagOf fs ops).2.results.length = ops.length ∧
      (∀ res ∈ (batch etagOf fs ops).2.results, res.success = true) ∧
      (batch etagOf fs ops).2.rollback_performed = false) ∨
    ((∃ res ∈ (batch etagOf fs ops).2.results, res.success = false) ∧
      (batch etagOf fs ops).2.rollback_performed = true)

/-- Counterexample to C3 as frozen: a batch whose only operation has the
invalid path `../x` fails validation up front and returns success=false
with empty results and no rollback — no operation reported success, none
reported failure. -/
theorem C3_counterexample : ¬ C3_claim := by
  intro h
  rcases h (fun _ => "") [] [{ op_type := OperationType.read, path := "../x" }] with
    ⟨hlen, _, _⟩ | ⟨⟨res, hmem, _⟩, _⟩
  · exact absurd hlen (by decide)
  · have hnil : (batch (fun _ => "") []
        [{ op_type := OperationType.read, path := "../x" }]).2.results = [] := by
      decide
    rw [hnil] at hmem
    exact List.not_mem_nil res hmem

/-! ## Container manager (managers/container_manager.py) -/

/-- The `Container` row (models/containers.py), fields as used by
`create_container`. -/
structure Container : Type where
  id : String
  docker_id : String
  alias_ : Option String
  image : String
  digest : Option String
  persistent : Bool
  created_at : Int
  last_seen : Int
  ttl_s : Option Int
  volume_name : Option String
  status : String
  idempotency_key : Option String
  idempotency_key_created_at : Option Int
  deriving DecidableEq

/-- `ResolvedImage` as returned by the image policy. -/
structure ResolvedImage : Type where
  resolved_ref : String
  digest : Option String
  deriving DecidableEq

/-- Durable store plus runtime containers, as `create_container` sees them. -/
structure CMState : Type where
  db : List Container
  docker : List String
  deriving DecidableEq

/-- Externally visible effects of one `create_container` call. -/
inductive CMEvent : Type
  | imageResolved (image : String)
  | dockerCreated (dockerId : String)
  | dockerRemoved (dockerId : String)
  | dbCommitted (id : String)
  deriving DecidableEq

/-- Errors `create_container` can surface. -/
inductive CMErr : Type
  | imagePolicy (image : String)
  | aliasInUse (alias_ : String)
  | dockerApi
  | dbCommitFailed
  deriving DecidableEq

/-- Steps (5)-(8) of `create_container`: volume config, security options,
runtime create (inside `try/except APIError`: a failure is wrapped as
`DockerAPIError`), then the DS commit.  A commit failure is no `APIError`
and therefore propagates uncaught — with no removal of the runtime
container just created. -/
def create_finish (st : CMState) (resolved : ResolvedImage)
    (container_id docker_id : String) (alias_ : Option String)
    (persistent : Bool) (ttl_s : Option Int) (idempotency_key : Option String)
    (now : Int) (events : List CMEvent) (dockerOk commitOk : Bool) :
    CMState × List CMEvent × Except CMErr Container :=
  let volume_name :=
    if persistent then some ("mcpdevbench_persist_" ++ container_id) else none
  if dockerOk then
    let st2 : CMState := { st with docker := st.docker ++ [docker_id] }
    let container : Container :=
      { id := container_id
        docker_id := docker_id
        alias_ := alias_
        image := resolved.resolved_ref
        digest := resolved.digest
        persistent := persistent
        created_at := now
        last_seen := now
        ttl_s := ttl_s
        volume_name := volume_name
        status := "stopped"
        idempotency_key := idempotency_key
        idempotency_key_created_at := if idempotency_key.isSome then some now else none }
    if commitOk then
      ({ st2 with db := st2.db ++ [container] },
       events ++ [CMEvent.dockerCreated docker_id, CMEvent.dbCommitted container_id],
       .ok container)
    else
      (st2, events ++ [CMEvent.dockerCreated docker_id], .error CMErr.dbCommitFailed)
  else (st, events, .error CMErr.dockerApi)

/-- Steps (2)-(8) of `create_container` once the idempotency lookup has
fallen through: resolve the image (an `ImagePolicyError` propagates),
generate `c_<uuid>`, check the alias, then `create_finish`. -/
def create_fresh (st : CMState) (image : String) (alias_ : Option String)
    (persistent : Bool) (ttl_s : Option Int) (idempotency_key : Option String)
    (resolve : String → Option ResolvedImage) (uuid : String) (now : Int)
    (dockerOk commitOk : Bool) : CMState × List CMEvent × Except CMErr Container :=
  match resolve image with
  | none => (st, [CMEvent.imageResolved image], .error (CMErr.imagePolicy image))
  | some resolved =>
    let container_id := "c_" ++ uuid
    match alias_ with
    | some a =>
      if (st.db.find? (fun c => c.alias_ = some a)).isSome then
        (st, [CMEvent.imageResolved image], .error (CMErr.aliasInUse a))
      else
        create_finish st resolved container_id ("d_" ++ uuid) (some a) persistent
          ttl_s idempotency_key now [CMEvent.imageResolved image] dockerOk commitOk
    | none =>
      create_finish st resolved container_id ("d_" ++ uuid) none persistent
        ttl_s idempotency_key now [CMEvent.imageResolved image] dockerOk commitOk

/-- `ContainerManager.create_container`: step (1), the idempotency-key
lookup — a stored container with the key whose `idempotency_key_created_at`
is within 24 hours is returned unchanged, resolving no image and creating
nothing — then `create_fresh`.  `resolve` stands for the image policy,
`uuid` for the generated identifier, `dockerOk`/`commitOk` for whether the
runtime create and the DS commit succeed. -/
def create_container (st : CMState) (image : String) (alias_ : Option String)
    (persistent : Bool) (ttl_s : Option Int) (idempotency_key : Option String)
    (resolve : String → Option ResolvedImage) (uuid : String) (now : Int)
    (dockerOk commitOk : Bool) : CMState × List CMEvent × Except CMErr Container :=
  match idempotency_key with
  | some k =>
    match st.db.find? (fun c => c.idempotency_key = some k) with
    | some existing =>
      match existing.idempotency_key_created_at with
      | some t =>
        if now - t < 86400 then (st, [], .ok existing)
        else
          create_fresh st image alias_ persistent ttl_s (some k) resolve uuid now
            dockerOk commitOk
      | none =>
        create_fresh st image alias_ persistent ttl_s (some k) resolve uuid now
          dockerOk commitOk
    | none =>
      create_fresh st image alias_ persistent ttl_s (some k) resolve uuid now
        dockerOk commitOk
  | none =>
    create_fresh st image alias_ persistent ttl_s none resolve uuid now
      dockerOk commitOk

/-- A successful `create_finish` committed exactly the new row, whose
idempotency fields are the supplied key and the call timestamp. -/
theorem create_finish_ok (st : CMState) (resolved : ResolvedImage)
    (container_id docker_id : String) (alias_ : Option String)
    (persistent : Bool) (ttl_s : Option Int) (key : Option String) (now : Int)
    (events : List CMEvent) (dockerOk commitOk : Bool) (st2 : CMState)
    (ev : List CMEvent) (c : Container)
    (h : create_finish st resolved container_id docker_id alias_ persistent
      ttl_s key now events dockerOk commitOk = (st2, ev, Except.ok c)) :
    st2.db = st.db ++ [c] ∧ c.idempotency_key = key ∧
    c.idempotency_key_created_at = (if key.isSome then some now else none) := by
  cases dockerOk with
  | false => simp [create_finish] at h
  | true =>
    cases commitOk with
    | false => simp [create_finish] at h
    | true =>
      simp only [create_finish, if_true] at h
      simp only [Prod.mk.injEq, Except.ok.injEq] at h
      obtain ⟨h1, _, h3⟩ := h
      subst h3
      refine ⟨?_, rfl, rfl⟩
      rw [← h1]

/-- A successful `create_fresh` behaves like `create_finish` with the
generated ids. -/
theorem create_fresh_ok (st : CMState) (image : String) (alias_ : Option String)
    (persistent : Bool) (ttl_s : Option Int) (key : Option String)
    (resolve : String → Option ResolvedImage) (uuid : String) (now : Int)
    (dockerOk commitOk : Bool) (st2 : CMState) (ev : List CMEvent) (c : Container)
    (h : create_fresh st image alias_ persistent ttl_s key resolve uuid now
      dockerOk commitOk = (st2, ev, Except.ok c)) :
    st2.db = st.db ++ [c] ∧ c.idempotency_key = key ∧
    c.idempotency_key_created_at = (if key.isSome then some now else none) := by
  unfold create_fresh at h
  cases hres : resolve image with
  | none => rw [hres] at h; simp at h
  | some resolved =>
    rw [hres] at h
    cases alias_ with
    | none => exact create_finish_ok _ _ _ _ _ _ _ _ _ _ _ _ _ _ _ h
    | some a =>
      dsimp only at h
      by_cases hclash : (st.db.find? (fun c => c.alias_ = some a)).isSome = true
      · rw [if_pos hclash] at h
        simp at h
      · rw [if_neg hclash] at h
        exact create_finish_ok _ _ _ _ _ _ _ _ _ _ _ _ _ _ _ h

/-- Claim C7: two Create calls with the same idempotency key, the second
within 24 hours of the first, return the same container: provided no
container already carried the key, a first call that succeeds stores the
row, and the second call — whatever its image, alias, or the fate of its
runtime and store operations — returns that row unchanged, with no events:
no image resolution, no runtime container created, nothing committed. -/
theorem C7_spawn_idempotency (st st2 : CMState) (ev1 : List CMEvent)
    (c : Container) (image : String) (alias_ : Option String)
    (persistent : Bool) (ttl_s : Option Int) (k : String)
    (resolve : String → Option ResolvedImage) (uuid : String) (t1 : Int)
    (image2 : String) (alias2 : Option String) (persistent2 : Bool)
    (ttl2 : Option Int) (resolve2 : String → Option ResolvedImage)
    (uuid2 : String) (t2 : Int) (dockerOk2 commitOk2 : Bool)
    (hkey : st.db.find? (fun c => c.idempotency_key = some k) = none)
    (hrun : create_container st image alias_ persistent ttl_s (some k) resolve
      uuid t1 true true = (st2, ev1, Except.ok c))
    (htime : t2 - t1 < 86400) :
    create_container st2 image2 alias2 persistent2 ttl2 (some k) resolve2
      uuid2 t2 dockerOk2 commitOk2 = (st2, [], Except.ok c) := by
  simp only [create_container, hkey] at hrun
  obtain ⟨hdb, hck, hcreated⟩ :=
    create_fresh_ok _ _ _ _ _ _ _ _ _ _ _ _ _ _ hrun
  simp only [Option.isSome_some, if_true] at hcreated
  have hfind : st2.db.find? (fun c => c.idempotency_key = some k) = some c := by
    rw [hdb, List.find?_append, hkey]
    simp [List.find?_cons, hck]
  simp only [create_container, hfind, hcreated]
  rw [if_pos htime]

/-- Stored row for the C7 witness, produced by the first call. -/
def c7C : Container := { id := "c_" ++ "u1", docker_id := "d_" ++ "u1", alias_ := none, image := "docker.io/library/alpine:latest", digest := none, persistent := false, created_at := 0, last_seen := 0, ttl_s := none, volume_name := none, status := "stopped", idempotency_key := some "K", idempotency_key_created_at := some 0 }

/-- Witness for C7: a fresh first call with key "K" at time 0, then a
second call one hour later with a different image, a failing resolver and
failing runtime/store operations, which still returns the stored row with
no events. -/
theorem C7_witness :
    create_container { db := [c7C], docker := ["d_" ++ "u1"] } "other:img" none
      true none (some "K") (fun _ => none) "u2" 3600 false false =
      ({ db := [c7C], docker := ["d_" ++ "u1"] }, [], Except.ok c7C) :=
  C7_spawn_idempotency { db := [], docker := [] }
    { db := [c7C], docker := ["d_" ++ "u1"] }
    [CMEvent.imageResolved "alpine:latest", CMEvent.dockerCreated ("d_" ++ "u1"),
      CMEvent.dbCommitted ("c_" ++ "u1")]
    c7C "alpine:latest" none false none "K"
    (fun _ => some { resolved_ref := "docker.io/library/alpine:latest", digest := none })
    "u1" 0 "other:img" none true none (fun _ => none) "u2" 3600 false false
    (by rfl) (by rfl) (by decide)

/-- A `create_finish` whose runtime create succeeded and whose commit
failed leaves the runtime container in place and the store untouched, with
no removal event. -/
theorem create_finish_commitfail (st : CMState) (resolved : ResolvedImage)
    (container_id docker_id : String) (alias_ : Option String)
    (persistent : Bool) (ttl_s : Option Int) (key : Option String) (now : Int)
    (events : List CMEvent) (st2 : CMState) (ev : List CMEvent)
    (h : create_finish st resolved container_id docker_id alias_ persistent
      ttl_s key now events true false = (st2, ev, Except.error CMErr.dbCommitFailed)) :
    st2.docker = st.docker ++ [docker_id] ∧ st2.db = st.db ∧
    ev = events ++ [CMEvent.dockerCreated docker_id] := by
  simp only [create_finish, if_true, Prod.mk.injEq] at h
  rcases h with ⟨rfl, rfl⟩
  exact ⟨rfl, rfl, rfl⟩

/-- `create_fresh` version of the preceding lemma. -/
theorem create_fresh_commitfail (st : CMState) (image : String)
    (alias_ : Option String) (persistent : Bool) (ttl_s : Option Int)
    (key : Option String) (resolve : String → Option ResolvedImage)
    (uuid : String) (now : Int) (st2 : CMState) (ev : List CMEvent)
    (h : create_fresh st image alias_ persistent ttl_s key resolve uuid now
      true false = (st2, ev, Except.error CMErr.dbCommitFailed)) :
    st2.docker = st.docker ++ ["d_" ++ uuid] ∧ st2.db = st.db ∧
    ev = [CMEvent.imageResolved image, CMEvent.dockerCreated ("d_" ++ uuid)] := by
  unfold create_fresh at h
  cases hres : resolve image with
  | none => rw [hres] at h; simp at h
  | some resolved =>
    rw [hres] at h
    have hfin : ∀ al, create_finish st resolved ("c_" ++ uuid) ("d_" ++ uuid) al
        persistent ttl_s key now [CMEvent.imageResolved image] true false =
        (st2, ev, Except.error CMErr.dbCommitFailed) →
        st2.docker = st.docker ++ ["d_" ++ uuid] ∧ st2.db = st.db ∧
        ev = [CMEvent.imageResolved image, CMEvent.dockerCreated ("d_" ++ uuid)] := by
      intro al hh
      obtain ⟨h1, h2, h3⟩ := create_finish_commitfail _ _ _ _ _ _ _ _ _ _ _ _ hh
      exact ⟨h1, h2, h3⟩
    cases alias_ with
    | none => exact hfin none h
    | some a =>
      dsimp only at h
      by_cases hclash : (st.db.find? (fun c => c.alias_ = some a)).isSome = true
      · rw [if_pos hclash] at h
        simp at h
      · rw [if_neg hclash] at h
        exact hfin (some a) h

/-- Claim C4 (amended): when the runtime container was created and the DS
commit then fails, `create_container` surfaces the commit error with the
created runtime container still present, the store untouched, and no
removal attempted — a failed creation does leave an orphaned runtime
container. -/
theorem C4_commit_failure_orphans (st : CMState) (image : String)
    (alias_ : Option String) (persistent : Bool) (ttl_s : Option Int)
    (key : Option String) (resolve : String → Option ResolvedImage)
    (uuid : String) (now : Int) (st2 : CMState) (ev : List CMEvent)
    (hrun : create_container st image alias_ persistent ttl_s key resolve uuid
      now true false = (st2, ev, Except.error CMErr.dbCommitFailed)) :
    st2.docker = st.docker ++ ["d_" ++ uuid] ∧ st2.db = st.db ∧
    ("d_" ++ uuid) ∈ st2.docker ∧ CMEvent.dockerRemoved ("d_" ++ uuid) ∉ ev := by
  have main : create_fresh st image alias_ persistent ttl_s key resolve uuid now
      true false = (st2, ev, Except.error CMErr.dbCommitFailed) →
      st2.docker = st.docker ++ ["d_" ++ uuid] ∧ st2.db = st.db ∧
      ("d_" ++ uuid) ∈ st2.docker ∧ CMEvent.dockerRemoved ("d_" ++ uuid) ∉ ev := by
    intro h
    obtain ⟨h1, h2, h3⟩ := create_fresh_commitfail _ _ _ _ _ _ _ _ _ _ _ h
    refine ⟨h1, h2, ?_, ?_⟩
    · rw [h1]
      exact List.mem_append_right _ (List.mem_singleton_self _)
    · rw [h3]
      simp
  cases hk : key with
  | none =>
    rw [hk] at hrun
    exact main hrun
  | some k =>
    rw [hk] at hrun
    simp only [create_container] at hrun
    cases hf : st.db.find? (fun c => c.idempotency_key = some k) with
    | none =>
      rw [hf] at hrun
      exact main hrun
    | some existing =>
      rw [hf] at hrun
      dsimp only at hrun
      cases hc : existing.idempotency_key_created_at with
      | none =>
        rw [hc] at hrun
        exact main hrun
      | some t =>
        rw [hc] at hrun
        dsimp only at hrun
        by_cases ht : now - t < 86400
        · rw [if_pos ht] at hrun
          simp at hrun
        · rw [if_neg ht] at hrun
          exact main hrun

/-- First-call state for the C4 instances. -/
def c4St : CMState := { db := [], docker := [] }

/-- Post-state of the C4 run: the runtime container exists, the store is
empty. -/
def c4St2 : CMState := { db := [], docker := ["d_" ++ "u1"] }

/-- Events of the C4 run: resolution and runtime creation, no removal. -/
def c4Ev : List CMEvent :=
  [CMEvent.imageResolved "alpine:latest", CMEvent.dockerCreated ("d_" ++ "u1")]

/-- Witness for C4 (amended) at a concrete failing commit. -/
theorem C4_witness :
    c4St2.docker = c4St.docker ++ ["d_" ++ "u1"] ∧ c4St2.db = c4St.db ∧
    ("d_" ++ "u1") ∈ c4St2.docker ∧
    CMEvent.dockerRemoved ("d_" ++ "u1") ∉ c4Ev :=
  C4_commit_failure_orphans c4St "alpine:latest" none false none none
    (fun _ => some { resolved_ref := "ref", digest := none }) "u1" 0 c4St2 c4Ev
    (by rfl)

/-- Claim C4 exactly as frozen: after a successful runtime create whose DS
commit fails, the created runtime container is removed (best effort), so no
orphan remains. -/
def C4_claim : Prop :=
  ∀ (st : CMState) (image : String) (alias_ : Option String) (persistent : Bool)
    (ttl_s : Option Int) (key : Option String)
    (resolve : String → Option ResolvedImage) (uuid : String) (now : Int)
    (st2 : CMState) (ev : List CMEvent),
    create_container st image alias_ persistent ttl_s key resolve uuid now
      true false = (st2, ev, Except.error CMErr.dbCommitFailed) →
    (("d_" ++ uuid) ∉ st2.docker ∨ CMEvent.dockerRemoved ("d_" ++ uuid) ∈ ev)

/-- Counterexample to C4 as frozen: a failing commit after a successful
runtime create leaves the runtime container in the runtime and no removal
is attempted (there is no cleanup code on that path; only `APIError` from
the runtime is handled). -/
theorem C4_counterexample : ¬ C4_claim := by
  intro h
  rcases h c4St "alpine:latest" none false none none
      (fun _ => some { resolved_ref := "ref", digest := none }) "u1" 0 c4St2 c4Ev
      (by rfl) with hmem | hev
  · exact hmem (by decide)
  · exact absurd hev (by decide)

end DevBench
